import Mathlib

/-!
Verification development for the schema compatibility and normalization engine
of kartothek (`kartothek/core/common_metadata.py`).

The Python source is shallowly embedded: pyarrow types and fields become an
inductive type and a structure, `SchemaWrapper` becomes a structure holding a
raw schema plus a provenance set, and each Python function of the module
becomes a Lean function of the same name.  Stateful loops become explicit
recursive functions carrying their state; functions that can raise become
`Except VError` computations.
-/

namespace Kartothek

/-- Timestamp resolutions of the arrow type system (`pa.timestamp(unit)`). -/
inductive TimeUnit where
  | s
  | ms
  | us
  | ns
deriving DecidableEq, Repr

/-- Arrow-level types as far as the engine inspects them.  `other` stands for
any further arrow type the engine treats as opaque passthrough data. -/
inductive PaType where
  | int8
  | int16
  | int32
  | int64
  | uint8
  | uint16
  | uint32
  | uint64
  | float16
  | float32
  | float64
  | boolean
  | string
  | binary
  | date32
  | null
  | timestamp (unit : TimeUnit)
  | list (value : PaType)
  | dictionary (index : PaType) (value : PaType) (ordered : Bool)
  | other (tag : String)
deriving DecidableEq, Repr

/-- One arrow field: `pa.field(name, type, nullable)`. -/
structure Field where
  name : String
  type : PaType
  nullable : Bool
deriving DecidableEq, Repr

/-- A column descriptor from the `b"pandas"` schema metadata (one entry of the
`"columns"` list).  Only the keys the embedded code reads are modelled; the
remaining descriptor keys are never consulted by the functions below. -/
structure ColumnDescriptor where
  name : Option String
  fieldName : String
deriving DecidableEq, Repr

/-- One entry of the `"index_columns"` list of the pandas metadata: either a
named index column or a serialized `RangeIndex` descriptor (a dict). -/
inductive PandasIndexColumn where
  | named (col : String)
  | rangeIndex
deriving DecidableEq, Repr

/-- The parsed `b"pandas"` metadata blob.  The source stores it as a JSON
byte string and re-parses it (`load_json` / `_dict_to_binary`); the embedding
keeps it structured. -/
structure PandasMetadata where
  indexColumns : List PandasIndexColumn
  columns : List ColumnDescriptor
  pandasVersion : String
deriving DecidableEq, Repr

/-- A bare `pyarrow.Schema`: an ordered field list plus the optional pandas
metadata blob.  A `SchemaWrapper` is only ever constructed around a schema
whose metadata is either absent or contains the `b"pandas"` key (the
constructor crashes otherwise), so the metadata map is modelled as the
optional pandas blob. -/
structure RawSchema where
  fields : List Field
  metadata : Option PandasMetadata
deriving DecidableEq, Repr

/-- `SchemaWrapper`: a raw schema together with its provenance label set. -/
structure SchemaWrapper where
  schema : RawSchema
  origin : Finset String
deriving DecidableEq

/-- Errors raised by the engine.  In Python these are `ValueError`
(`mixedPandas`, `schemaViolation`, `incompatibleColumn`),
`NotImplementedError` (`multiIndex`) and `TypeError`-like failures from
pyarrow lookups (`healMissingField`, `fieldLookup`). -/
inductive VError where
  | mixedPandas
  | multiIndex
  | healMissingField (col : String)
  | fieldLookup (col : String)
  | schemaViolation (originSchema : Finset String) (originReference : Finset String)
  | incompatibleColumn (col : String) (ref : Field × String) (obj : Field × String)
deriving DecidableEq

/-- Models `pd.__version__`, the version tag of the externally installed
pandas library.  Comparisons never depend on its value. -/
def currentPandasVersion : String := "1.0.0"

/-- `SchemaWrapper.with_origin`: replace the provenance only.  (The Python
constructor re-runs `_schema_compat`, which is the identity on any schema a
wrapper can already hold.) -/
def SchemaWrapper.with_origin (s : SchemaWrapper) (origin : Finset String) : SchemaWrapper :=
  { schema := s.schema, origin := origin }

/-- `SchemaWrapper.remove_metadata`: clear the metadata and tag every origin
label with `"__no_metadata"`. -/
def SchemaWrapper.remove_metadata (s : SchemaWrapper) : SchemaWrapper :=
  { schema := { fields := s.schema.fields, metadata := none },
    origin := s.origin.image (fun o => o ++ "__no_metadata") }

/-- `SchemaWrapper.remove`: drop the field at an index (copy-on-write). -/
def SchemaWrapper.removeField (s : SchemaWrapper) (i : Nat) : SchemaWrapper :=
  { schema := { fields := s.schema.fields.eraseIdx i, metadata := s.schema.metadata },
    origin := s.origin }

/-- `SchemaWrapper.set`: replace the field at an index (copy-on-write). -/
def SchemaWrapper.setField (s : SchemaWrapper) (i : Nat) (f : Field) : SchemaWrapper :=
  { schema := { fields := s.schema.fields.set i f, metadata := s.schema.metadata },
    origin := s.origin }

/-- Field names of a schema, in field order (`schema.names`). -/
def SchemaWrapper.names (s : SchemaWrapper) : List String :=
  s.schema.fields.map Field.name

/-- `schema.get_field_index(name)` resolved to an optional index: the index of
the first field with the given name, `none` where the source returns `-1`. -/
def SchemaWrapper.fieldIndex (s : SchemaWrapper) (col : String) : Option Nat :=
  s.schema.fields.findIdx? (fun f => f.name == col)

/-- `schema.field_by_name(name)`: the first field with the given name, if any. -/
def SchemaWrapper.fieldByName (s : SchemaWrapper) (col : String) : Option Field :=
  s.schema.fields.find? (fun f => f.name == col)

/-- `_pandas_in_schemas`: does any schema carry pandas metadata? -/
def _pandas_in_schemas (schemas : List SchemaWrapper) : Bool :=
  schemas.any (fun s => s.schema.metadata.isSome)

/-- The null-column names of a schema, in field order.  The source builds the
set `{field.name for field in current if field.type == pa.null()}`; for the
unique-field-name schemas the engine operates on, this list is that set. -/
def nullColumns (s : SchemaWrapper) : List String :=
  (s.schema.fields.filter (fun f => f.type == PaType.null)).map Field.name

/-- `SchemaWrapper._schema_compat` (run by the constructor): reject more than
one pandas index level, and drop any named index column that is still
present in the field list (ARROW-5104). -/
def schema_compat (s : SchemaWrapper) : Except VError SchemaWrapper :=
  match s.schema.metadata with
  | none => .ok s
  | some blob =>
      if 1 < blob.indexColumns.length then .error .multiIndex
      else
        let fields := blob.indexColumns.foldl
          (fun fs ic =>
            match ic with
            | PandasIndexColumn.rangeIndex => fs
            | PandasIndexColumn.named col =>
                match fs.findIdx? (fun f => f.name == col) with
                | some i => fs.eraseIdx i
                | none => fs)
          s.schema.fields
        .ok { schema := { fields := fields, metadata := some blob }, origin := s.origin }

/-- The per-schema preprocessing of `_determine_schemas_to_compare`: when
pandas metadata is in play, reject schemas without it, rewrite the stored
pandas version to the running one, and rebuild the wrapper (which re-runs
`_schema_compat`).  Without pandas the schema passes through unchanged. -/
def prepare_schema (has_pandas : Bool) (schema : SchemaWrapper) : Except VError SchemaWrapper :=
  if has_pandas then
    match schema.schema.metadata with
    | none => .error .mixedPandas
    | some blob =>
        let blob' : PandasMetadata :=
          { indexColumns := blob.indexColumns
            columns := blob.columns
            pandasVersion := currentPandasVersion }
        schema_compat
          { schema := { fields := schema.schema.fields, metadata := some blob' },
            origin := schema.origin }
  else .ok schema

/-- `_swap_fields_by_name`: replace the (first) field of the given name in
`reference` by the corresponding field of `current`.  The source performs no
checks; a missing field crashes inside pyarrow, modelled as an error. -/
def _swap_fields_by_name (reference current : SchemaWrapper) (field_name : String) :
    Except VError SchemaWrapper :=
  match current.fieldByName field_name with
  | none => .error (.healMissingField field_name)
  | some current_field =>
      match reference.fieldIndex field_name with
      | none => .error (.healMissingField field_name)
      | some reference_index => .ok (reference.setField reference_index current_field)

/-- The healing loop of `_determine_schemas_to_compare`: for every column in
the (precomputed) set difference, copy the concretely typed field from
`current` into `reference` and drop the column from the null set. -/
def heal_loop (current : SchemaWrapper) (reference : SchemaWrapper)
    (null_cols_in_reference : List String) :
    List String → Except VError (SchemaWrapper × List String)
  | [] => .ok (reference, null_cols_in_reference)
  | col :: cols => do
      let reference' ← _swap_fields_by_name reference current col
      heal_loop current reference' (null_cols_in_reference.erase col) cols

/-- The loop state of `_determine_schemas_to_compare`: the current reference,
its null columns, and the accumulated `(schema, null_columns)` pairs. -/
structure ResolverState where
  reference : Option SchemaWrapper
  null_cols_in_reference : List String
  schemas_to_evaluate : List (SchemaWrapper × List String)
deriving DecidableEq

/-- One iteration of the `_determine_schemas_to_compare` loop. -/
def resolver_step (has_pandas : Bool) (st : ResolverState) (schema : SchemaWrapper) :
    Except VError ResolverState := do
  let current ← prepare_schema has_pandas schema
  let null_columns := nullColumns current
  match st.reference with
  | none =>
      pure { reference := some current
             null_cols_in_reference := null_columns
             schemas_to_evaluate := st.schemas_to_evaluate }
  | some reference =>
      if st.null_cols_in_reference.all (fun c => null_columns.elem c) then
        pure { st with
          schemas_to_evaluate := st.schemas_to_evaluate ++ [(current, null_columns)] }
      else if null_columns.all (fun c => st.null_cols_in_reference.elem c) then
        pure { reference := some current
               null_cols_in_reference := null_columns
               schemas_to_evaluate :=
                 st.schemas_to_evaluate ++ [(reference, st.null_cols_in_reference)] }
      else
        -- The source swaps the bindings (`reference, current = current,
        -- reference` and likewise the null sets) when the current schema has
        -- strictly fewer null columns; the two branches below spell out both
        -- outcomes of that swap.
        if null_columns.length < st.null_cols_in_reference.length then do
          let healed ← heal_loop reference current null_columns
            (null_columns.filter (fun c => !st.null_cols_in_reference.elem c))
          pure { reference := some healed.1
                 null_cols_in_reference := healed.2
                 schemas_to_evaluate :=
                   st.schemas_to_evaluate ++ [(reference, st.null_cols_in_reference)] }
        else do
          let healed ← heal_loop current reference st.null_cols_in_reference
            (st.null_cols_in_reference.filter (fun c => !null_columns.elem c))
          pure { reference := some healed.1
                 null_cols_in_reference := healed.2
                 schemas_to_evaluate := st.schemas_to_evaluate ++ [(current, null_columns)] }

/-- The loop of `_determine_schemas_to_compare` over the input list. -/
def resolver_loop (has_pandas : Bool) (st : ResolverState) :
    List SchemaWrapper → Except VError ResolverState
  | [] => .ok st
  | schema :: rest => do
      let st' ← resolver_step has_pandas st schema
      resolver_loop has_pandas st' rest

/-- `_determine_schemas_to_compare`: pick a reference schema and pair every
other schema with its null columns. -/
def _determine_schemas_to_compare (schemas : List SchemaWrapper) (ignore_pandas : Bool) :
    Except VError (Option SchemaWrapper × List (SchemaWrapper × List String)) := do
  let has_pandas := _pandas_in_schemas schemas && !ignore_pandas
  let st ← resolver_loop has_pandas
    { reference := none, null_cols_in_reference := [], schemas_to_evaluate := [] } schemas
  pure (st.reference, st.schemas_to_evaluate)

/-- The loop of `_strip_columns_from_schema`: remove the named fields one by
one; on the first name missing from the (already stripped) schema, return the
original schema unchanged and report the warning as the `true` flag. -/
def strip_loop (schema : SchemaWrapper) (stripped_schema : SchemaWrapper) :
    List String → SchemaWrapper × Bool
  | [] => (stripped_schema, false)
  | col :: rest =>
      match stripped_schema.fieldIndex col with
      | some ix => strip_loop schema (stripped_schema.removeField ix) rest
      | none => (schema, true)

/-- `_strip_columns_from_schema`.  The Boolean is `true` when the source
emits its diagnostic warning (and hence returns the unstripped schema). -/
def _strip_columns_from_schema (schema : SchemaWrapper) (field_names : List String) :
    SchemaWrapper × Bool :=
  strip_loop schema schema field_names

/-- The comparison `validate_compatible` performs for one
`(current, null_columns)` pair: strip the null columns and the metadata from
both sides and test strict equality.  `pa.Schema.equals` with
`check_metadata=False` compares exactly the field lists (names, types,
nullability, in order).  `true` means mismatch. -/
def schemas_mismatch (reference current : SchemaWrapper) (null_columns : List String) : Bool :=
  ((_strip_columns_from_schema reference null_columns).1.remove_metadata.schema.fields
      ≠ (_strip_columns_from_schema current null_columns).1.remove_metadata.schema.fields : Bool)

/-- The comparison loop of `validate_compatible`: raise a schema violation
(carrying both origin sets, which the source renders via `_fmt_origin` into
the message) on the first mismatching pair. -/
def compare_loop (reference : SchemaWrapper) :
    List (SchemaWrapper × List String) → Except VError Unit
  | [] => .ok ()
  | (current, null_columns) :: rest =>
      if schemas_mismatch reference current null_columns then
        .error (.schemaViolation current.origin reference.origin)
      else compare_loop reference rest

/-- `validate_compatible`: resolve a reference, compare every pair, and on
success return the reference carrying the union of all origins. -/
def validate_compatible (schemas : List SchemaWrapper) (ignore_pandas : Bool) :
    Except VError (Option SchemaWrapper) := do
  let res ← _determine_schemas_to_compare schemas ignore_pandas
  match res with
  | (none, _) => pure none
  | (some reference, schemas_to_evaluate) => do
      compare_loop reference schemas_to_evaluate
      pure (some (reference.with_origin
        (schemas_to_evaluate.foldl (fun acc p => acc ∪ p.1.origin) reference.origin)))

/-- The `field_name`s of the pandas column descriptors that carry a logical
name (`cmd.get("name") is not None`), in descriptor order. -/
def pandas_columns (blob : PandasMetadata) : List String :=
  blob.columns.filterMap (fun cmd =>
    match cmd.name with
    | none => none
    | some _ => some cmd.fieldName)

/-- The comparable column list of one schema inside `validate_shared_columns`:
with pandas metadata, the `field_name`s of the descriptors carrying a logical
name; otherwise all field names.  Schemas without pandas metadata are
rejected when pandas is in play. -/
def shared_columns_of (has_pandas : Bool) (schema : SchemaWrapper) :
    Except VError (List String) :=
  if has_pandas then
    match schema.schema.metadata with
    | none => .error .mixedPandas
    | some blob => .ok (pandas_columns blob)
  else .ok schema.names

/-- The per-column loop of `validate_shared_columns`: record the
`(field, column)` pair on first sight, compare against the record afterwards.
The `seen` registry is threaded explicitly. -/
def shared_cols_loop (schema : SchemaWrapper) (seen : List (String × (Field × String))) :
    List String → Except VError (List (String × (Field × String)))
  | [] => .ok seen
  | col :: cols =>
      match schema.fieldByName col with
      | none => .error (.fieldLookup col)
      | some field =>
          match seen.lookup col with
          | some ref =>
              if ref = (field, col) then shared_cols_loop schema seen cols
              else .error (.incompatibleColumn col ref (field, col))
          | none => shared_cols_loop schema (seen ++ [(col, (field, col))]) cols

/-- The per-schema loop of `validate_shared_columns`. -/
def shared_schemas_loop (has_pandas : Bool) (seen : List (String × (Field × String))) :
    List SchemaWrapper → Except VError (List (String × (Field × String)))
  | [] => .ok seen
  | schema :: rest => do
      let cols ← shared_columns_of has_pandas schema
      let seen' ← shared_cols_loop schema seen cols
      shared_schemas_loop has_pandas seen' rest

/-- `validate_shared_columns`.  The source returns `None`; the embedding
returns the final `seen` registry (the function's internal state) so that
its observable effect is stateable. -/
def validate_shared_columns (schemas : List SchemaWrapper) (ignore_pandas : Bool) :
    Except VError (List (String × (Field × String))) :=
  shared_schemas_loop (_pandas_in_schemas schemas && !ignore_pandas) [] schemas

/-- The comparable column list as a total function, defined for the schemas
`validate_shared_columns` accepts (see `shared_columns_of`). -/
def comparable_columns (has_pandas : Bool) (schema : SchemaWrapper) : List String :=
  if has_pandas then
    match schema.schema.metadata with
    | none => []
    | some blob => pandas_columns blob
  else schema.names

/-- The Python slice `s[len("list["):-1]`: drop the first five characters and
the final character (an empty string results when the string is too short,
exactly as in Python). -/
def sliceListTag (s : String) : String :=
  { data := (s.data.drop 5).dropLast }

/-- `"list[{}]".format(t_pd)` where `t_pd` is a string or `None` (Python
formats `None` as `"None"`). -/
def formatListTag : Option String → String
  | some s => "list[" ++ s ++ "]"
  | none => "list[None]"

/-- `normalize_type`: reduce arrow/pandas/numpy type triples to the canonical
reduced type system.  `t_pd` and `t_np` are the pandas/numpy type tag strings
(`None` is passed in recursive calls), `metadata` the opaque per-column
metadata.  On a list type with `t_pd = None` the source would raise a
`TypeError` slicing `None`; the total model slices `none` to `none`
(`normalize_type` itself never produces such a tuple). -/
def normalize_type : PaType → Option String → Option String → Option String →
    PaType × Option String × Option String × Option String
  | .int8, _, _, _ => (.int64, some "int64", some "int64", none)
  | .int16, _, _, _ => (.int64, some "int64", some "int64", none)
  | .int32, _, _, _ => (.int64, some "int64", some "int64", none)
  | .int64, _, _, _ => (.int64, some "int64", some "int64", none)
  | .uint8, _, _, _ => (.uint64, some "uint64", some "uint64", none)
  | .uint16, _, _, _ => (.uint64, some "uint64", some "uint64", none)
  | .uint32, _, _, _ => (.uint64, some "uint64", some "uint64", none)
  | .uint64, _, _, _ => (.uint64, some "uint64", some "uint64", none)
  | .float16, _, _, _ => (.float64, some "float64", some "float64", none)
  | .float32, _, _, _ => (.float64, some "float64", some "float64", none)
  | .float64, _, _, _ => (.float64, some "float64", some "float64", none)
  | .list v, t_pd, _, _ =>
      match normalize_type v (t_pd.map sliceListTag) none none with
      | (t_pa2, t_pd2, _, _) => (.list t_pa2, some (formatListTag t_pd2), some "object", none)
  | .dictionary _ v _, _, t_np, _ => normalize_type v t_np t_np none
  | t, t_pd, t_np, metadata => (t, t_pd, t_np, metadata)

/-- Coerce a timestamp type to microsecond resolution, as
`pq.write_metadata(..., coerce_timestamps="us")` does on every timestamp
column when the schema bytes are produced. -/
def coerceTimestampUs : PaType → PaType
  | .timestamp _ => .timestamp .us
  | t => t

/-- `_schema2bytes`.  Modelled from the spec: the byte buffer produced by the
external pyarrow call `pq.write_metadata(schema, buf, version="2.0",
coerce_timestamps="us")` is a self-describing parquet footer that stores
every timestamp field at microsecond resolution and otherwise preserves the
field list and the metadata map; the embedding keeps that content
structurally instead of as bytes. -/
def _schema2bytes (schema : RawSchema) : RawSchema :=
  { fields := schema.fields.map (fun f =>
      { name := f.name, type := coerceTimestampUs f.type, nullable := f.nullable })
    metadata := schema.metadata }

/-- `_bytes2schema`: read the schema back (the argument is the structural
content of the byte buffer, see `_schema2bytes`) and upgrade every
microsecond timestamp field to nanosecond resolution
(`pa.field(f.name, pa.timestamp("ns"))`, which resets `nullable` to the
default `True`). -/
def _bytes2schema (data : RawSchema) : RawSchema :=
  { fields := data.fields.map (fun f =>
      if f.type = PaType.timestamp TimeUnit.us then
        { name := f.name, type := PaType.timestamp TimeUnit.ns, nullable := true }
      else f)
    metadata := data.metadata }

/-! ### Auxiliary predicates and concrete schemas used by the development -/

/-- Does an error value denote the schema-violation (`IncompatibleSchemaError`)
raised by the comparison loop of `validate_compatible`? -/
def VError.isViolation : VError → Bool
  | .schemaViolation _ _ => true
  | _ => false

/-- Does an error value denote the mixed-descriptor `ValueError`? -/
def VError.isMixed : VError → Bool
  | .mixedPandas => true
  | _ => false

/-- Does an error value denote the shared-column conflict
(`IncompatibleColumnError`)? -/
def VError.isIncompatCol : VError → Bool
  | .incompatibleColumn _ _ _ => true
  | _ => false

instance {ε α : Type} [DecidableEq ε] [DecidableEq α] : DecidableEq (Except ε α) := fun x y =>
  match x, y with
  | .ok a, .ok b =>
      if h : a = b then .isTrue (by rw [h]) else .isFalse (by simp [h])
  | .error e, .error f =>
      if h : e = f then .isTrue (by rw [h]) else .isFalse (by simp [h])
  | .ok _, .error _ => .isFalse (by simp)
  | .error _, .ok _ => .isFalse (by simp)

/-- Did a computation succeed? -/
def resultOk {α : Type} : Except VError α → Bool
  | .ok _ => true
  | .error _ => false

/-- Did a computation raise the schema-violation error? -/
def resultIsViolation {α : Type} : Except VError α → Bool
  | .ok _ => false
  | .error e => e.isViolation

/-- Did a computation raise the mixed-descriptor error? -/
def resultIsMixed {α : Type} : Except VError α → Bool
  | .ok _ => false
  | .error e => e.isMixed

/-- Did a computation raise the shared-column conflict error? -/
def resultIsIncompatCol {α : Type} : Except VError α → Bool
  | .ok _ => false
  | .error e => e.isIncompatCol

/-- A canonical schema has pairwise distinct field names. -/
def uniqueFieldNames (s : SchemaWrapper) : Prop :=
  (s.schema.fields.map Field.name).Nodup

instance (s : SchemaWrapper) : Decidable (uniqueFieldNames s) := by
  unfold uniqueFieldNames
  infer_instance

/-- The union of the origins of the schemas in a pending list. -/
def origins_union (pend : List (SchemaWrapper × List String)) : Finset String :=
  pend.foldl (fun acc p => acc ∪ p.1.origin) ∅

/-- The loop invariant of `_determine_schemas_to_compare`: the null set of
the current reference is recorded accurately and is contained in the null
set of every pair already placed in `schemas_to_evaluate`. -/
def ResolverInv (st : ResolverState) : Prop :=
  (∀ p ∈ st.schemas_to_evaluate, ∀ c ∈ st.null_cols_in_reference, c ∈ p.2) ∧
  (∀ r, st.reference = some r →
    st.null_cols_in_reference = nullColumns r ∧ uniqueFieldNames r) ∧
  (st.reference = none → st.null_cols_in_reference = [] ∧ st.schemas_to_evaluate = [])

/-- Two schemas record conflicting definitions for a column they share:
some column is comparable in both and its `(field, column)` record differs. -/
def columns_conflict (has_pandas : Bool) (s t : SchemaWrapper) : Prop :=
  ∃ col, col ∈ comparable_columns has_pandas s ∧ col ∈ comparable_columns has_pandas t ∧
    s.fieldByName col ≠ t.fieldByName col

/-- The loop invariant of `validate_shared_columns`: the `seen` registry
records, for every key, the `(field, column)` pair of some already processed
schema containing that comparable column, and conversely every comparable
column of a processed schema is registered. -/
def SharedInv (has_pandas : Bool) (seen : List (String × (Field × String)))
    (processed : List SchemaWrapper) : Prop :=
  (∀ k r, seen.lookup k = some r →
    ∃ s ∈ processed, ∃ f, s.fieldByName k = some f ∧
      k ∈ comparable_columns has_pandas s ∧ r = (f, k)) ∧
  (∀ s ∈ processed, ∀ col ∈ comparable_columns has_pandas s,
    ∃ f, s.fieldByName col = some f ∧ seen.lookup col = some (f, col))

/-- Is a type a dictionary type (`pa.types.is_dictionary`)? -/
def isDictionary : PaType → Bool
  | .dictionary _ _ _ => true
  | _ => false

/-- Concrete schema: fields `[a: null, b: int64]`, no pandas metadata. -/
def cexNullA : SchemaWrapper :=
  { schema := { fields := [⟨"a", .null, true⟩, ⟨"b", .int64, true⟩], metadata := none },
    origin := {"s1"} }

/-- Concrete schema: fields `[a: int64, b: null]`, no pandas metadata. -/
def cexNullB : SchemaWrapper :=
  { schema := { fields := [⟨"a", .int64, true⟩, ⟨"b", .null, true⟩], metadata := none },
    origin := {"s3"} }

/-- Concrete schema: fields `[b: int64, a: int64]` (note the field order),
no pandas metadata. -/
def cexConcrete : SchemaWrapper :=
  { schema := { fields := [⟨"b", .int64, true⟩, ⟨"a", .int64, true⟩], metadata := none },
    origin := {"s2"} }

/-- A minimal pandas metadata blob describing one payload column `x`. -/
def blobX : PandasMetadata :=
  { indexColumns := []
    columns := [{ name := some "x", fieldName := "x" }]
    pandasVersion := "0.25.0" }

/-- Concrete schema: field `x: int64` with pandas metadata for `x`. -/
def pandasIntX : SchemaWrapper :=
  { schema := { fields := [⟨"x", .int64, true⟩], metadata := some blobX },
    origin := {"p1"} }

/-- Concrete schema: field `x: string` with pandas metadata for `x`. -/
def pandasStrX : SchemaWrapper :=
  { schema := { fields := [⟨"x", .string, true⟩], metadata := some blobX },
    origin := {"p2"} }

/-- Concrete schema: field `y: int64`, no pandas metadata. -/
def plainIntY : SchemaWrapper :=
  { schema := { fields := [⟨"y", .int64, true⟩], metadata := none },
    origin := {"p3"} }

/-- Concrete schema: a single all-null column `a`. -/
def wNullA : SchemaWrapper :=
  { schema := { fields := [⟨"a", .null, true⟩], metadata := none },
    origin := {"w1"} }

/-- Concrete schema: a single concrete column `a: int64`. -/
def wIntA : SchemaWrapper :=
  { schema := { fields := [⟨"a", .int64, true⟩], metadata := none },
    origin := {"w2"} }

/-- Concrete schema: columns `x: int64`, `y: string`, no pandas metadata. -/
def wIntXStrY : SchemaWrapper :=
  { schema := { fields := [⟨"x", .int64, true⟩, ⟨"y", .string, true⟩], metadata := none },
    origin := {"w3"} }

/-- Concrete schema: the single column `x: int64`, no pandas metadata. -/
def wIntX : SchemaWrapper :=
  { schema := { fields := [⟨"x", .int64, true⟩], metadata := none },
    origin := {"w4"} }

/-- Concrete schema: two all-null columns `a`, `b`. -/
def wNullAB : SchemaWrapper :=
  { schema := { fields := [⟨"a", .null, true⟩, ⟨"b", .null, true⟩], metadata := none },
    origin := {"w5"} }

/-- Concrete schema: `a: null`, `b: int64`. -/
def wNullAIntB : SchemaWrapper :=
  { schema := { fields := [⟨"a", .null, true⟩, ⟨"b", .int64, true⟩], metadata := none },
    origin := {"w6"} }

/-- Concrete raw schema with a nanosecond timestamp field. -/
def wTsSchema : RawSchema :=
  { fields := [⟨"t", .timestamp .ns, false⟩, ⟨"v", .int64, true⟩], metadata := none }

/-! ### General lemmas about the embedded operations -/

theorem mem_names_of_fieldIndex {s : SchemaWrapper} {col : String} {i : Nat}
    (h : s.fieldIndex col = some i) : col ∈ s.names := by
  unfold SchemaWrapper.fieldIndex at h
  rw [List.findIdx?_eq_some_iff_getElem] at h
  obtain ⟨hlt, hp, -⟩ := h
  have hmem : s.schema.fields[i] ∈ s.schema.fields := List.getElem_mem hlt
  have hname : (s.schema.fields[i]).name = col := by simpa using hp
  exact hname ▸ List.mem_map_of_mem Field.name hmem

theorem names_removeField_subset (s : SchemaWrapper) (i : Nat) :
    (s.removeField i).names ⊆ s.names := by
  intro x hx
  exact ((List.eraseIdx_sublist s.schema.fields i).map Field.name).subset hx

theorem strip_loop_missing (schema : SchemaWrapper) :
    ∀ (field_names : List String) (stripped : SchemaWrapper),
      stripped.names ⊆ schema.names →
      (∃ n ∈ field_names, n ∉ schema.names) →
      strip_loop schema stripped field_names = (schema, true) := by
  intro field_names
  induction field_names with
  | nil =>
      intro stripped hsub h
      obtain ⟨n, hn, -⟩ := h
      cases hn
  | cons col rest ih =>
      intro stripped hsub h
      unfold strip_loop
      cases hidx : stripped.fieldIndex col with
      | none => rfl
      | some ix =>
          simp only []
          apply ih
          · exact fun x hx => hsub (names_removeField_subset stripped ix hx)
          · obtain ⟨n, hn, hnot⟩ := h
            rcases List.mem_cons.mp hn with rfl | hmem
            · exact absurd (hsub (mem_names_of_fieldIndex hidx)) hnot
            · exact ⟨n, hmem, hnot⟩

/-! ### Claim theorems (1): empty input, strip, round trip -/

/-- **C9**: on empty input the resolver yields no reference and an empty
pending list (its healing branch cannot run), `validate_compatible` returns
the `none` sentinel without raising, and `validate_shared_columns` returns
without raising and with an empty registry. -/
theorem empty_input_no_op (ignore_pandas : Bool) :
    _determine_schemas_to_compare [] ignore_pandas = .ok (none, []) ∧
    validate_compatible [] ignore_pandas = .ok none ∧
    validate_shared_columns [] ignore_pandas = .ok [] :=
  ⟨rfl, rfl, rfl⟩

/-- **C4**: if any name in the strip list is absent from the schema,
`_strip_columns_from_schema` returns the original schema completely
unchanged (not partially stripped) and reports the diagnostic warning
instead of raising. -/
theorem strip_columns_missing_name_unchanged
    (schema : SchemaWrapper) (field_names : List String)
    (h : ∃ n ∈ field_names, n ∉ schema.names) :
    _strip_columns_from_schema schema field_names = (schema, true) :=
  strip_loop_missing schema field_names schema (fun _ hx => hx) h

/-- Witness for `strip_columns_missing_name_unchanged`: stripping `["a", "b"]`
from the schema `[a: int64]` (where `"a"` is present but `"b"` is absent)
returns the schema unchanged with the warning flag. -/
theorem strip_columns_missing_name_unchanged_witness :
    _strip_columns_from_schema wIntA ["a", "b"] = (wIntA, true) :=
  strip_columns_missing_name_unchanged wIntA ["a", "b"] (by decide)

/-- **C6**: serializing a schema and deserializing the bytes restores every
nanosecond-timestamp field under its name at nanosecond resolution (the
intermediate encoding stores microseconds), and the deserializer upgrades
every microsecond-timestamp field back to nanosecond resolution on every
load. -/
theorem schema_bytes_timestamp_roundtrip :
    (∀ (schema : RawSchema) (nm : String) (b : Bool),
        (⟨nm, .timestamp .ns, b⟩ : Field) ∈ schema.fields →
        (⟨nm, .timestamp .ns, true⟩ : Field) ∈ (_bytes2schema (_schema2bytes schema)).fields) ∧
    (∀ (data : RawSchema) (f : Field), f ∈ data.fields → f.type = .timestamp .us →
        (⟨f.name, .timestamp .ns, true⟩ : Field) ∈ (_bytes2schema data).fields) := by
  constructor
  · intro schema nm b hmem
    unfold _bytes2schema _schema2bytes
    simp only [List.map_map]
    exact List.mem_map.mpr ⟨⟨nm, .timestamp .ns, b⟩, hmem, rfl⟩
  · intro data f hmem htype
    unfold _bytes2schema
    refine List.mem_map.mpr ⟨f, hmem, ?_⟩
    simp [htype]

/-- Witness for `schema_bytes_timestamp_roundtrip`: the nanosecond timestamp
field `t` of a concrete schema survives the byte round trip. -/
theorem schema_bytes_timestamp_roundtrip_witness :
    (⟨"t", .timestamp .ns, true⟩ : Field) ∈ (_bytes2schema (_schema2bytes wTsSchema)).fields :=
  schema_bytes_timestamp_roundtrip.1 wTsSchema "t" false (by decide)

/-! ### Normalize-type lemmas -/

theorem sliceListTag_format (s : String) : sliceListTag ("list[" ++ s ++ "]") = s := by
  show String.mk ((("list[" ++ s ++ "]").data.drop 5).dropLast) = s
  have h : ("list[" ++ s ++ "]").data = 'l' :: 'i' :: 's' :: 't' :: '[' :: (s.data ++ [']']) := by
    simp
  rw [h]
  show String.mk ((s.data ++ [']']).dropLast) = s
  rw [List.dropLast_concat]

theorem normalize_type_not_dictionary (t : PaType) :
    ∀ (t_pd t_np metadata : Option String),
      isDictionary (normalize_type t t_pd t_np metadata).1 = false := by
  induction t with
  | list v ih =>
      intro t_pd t_np metadata
      rcases hR : normalize_type v (t_pd.map sliceListTag) none none with ⟨a, b, r⟩
      simp [normalize_type, hR, isDictionary]
  | dictionary i v o ihi ihv =>
      intro t_pd t_np metadata
      simpa [normalize_type] using ihv t_np t_np none
  | timestamp u => intro _ _ _; rfl
  | other tag => intro _ _ _; rfl
  | _ => intro _ _ _; rfl

theorem normalize_type_head_independent (t : PaType)
    (t_pd np md np' md' : Option String) (hd : isDictionary t = false) :
    (normalize_type t t_pd np md).1 = (normalize_type t t_pd np' md').1 ∧
    (normalize_type t t_pd np md).2.1 = (normalize_type t t_pd np' md').2.1 := by
  cases t with
  | dictionary i v o => exact absurd hd (by simp [isDictionary])
  | _ => exact ⟨rfl, rfl⟩

theorem normalize_type_fixed_of_none_fixed (t : PaType) (np md : Option String)
    (h : normalize_type t none np md = (t, none, np, md)) :
    ∀ (t_pd np' md' : Option String), normalize_type t t_pd np' md' = (t, t_pd, np', md') := by
  intro t_pd np' md'
  cases t with
  | int8 => simp [normalize_type] at h
  | int16 => simp [normalize_type] at h
  | int32 => simp [normalize_type] at h
  | int64 => simp [normalize_type] at h
  | uint8 => simp [normalize_type] at h
  | uint16 => simp [normalize_type] at h
  | uint32 => simp [normalize_type] at h
  | uint64 => simp [normalize_type] at h
  | float16 => simp [normalize_type] at h
  | float32 => simp [normalize_type] at h
  | float64 => simp [normalize_type] at h
  | list v =>
      rcases hR : normalize_type v ((none : Option String).map sliceListTag) none none
        with ⟨a, b, r⟩
      simp [normalize_type, hR] at h
  | dictionary i v o =>
      have hnd := normalize_type_not_dictionary (.dictionary i v o) none np md
      rw [h] at hnd
      simp [isDictionary] at hnd
  | _ => rfl

theorem normalize_type_list_eq (v : PaType) (pd np md : Option String) :
    normalize_type (.list v) pd np md =
      (.list (normalize_type v (pd.map sliceListTag) none none).1,
       some (formatListTag (normalize_type v (pd.map sliceListTag) none none).2.1),
       some "object", none) := by
  rcases hR : normalize_type v (pd.map sliceListTag) none none with ⟨a, b, r⟩
  simp [normalize_type, hR]

/-- **C7**: `normalize_type` is idempotent: feeding any 4-tuple it returned
back into it yields the same 4-tuple unchanged, including for arbitrarily
nested list types. -/
theorem normalize_type_idempotent (t : PaType)
    (t_pd t_np metadata t_pd2 t_np2 metadata2 : Option String) (t2 : PaType)
    (h : normalize_type t t_pd t_np metadata = (t2, t_pd2, t_np2, metadata2)) :
    normalize_type t2 t_pd2 t_np2 metadata2 = (t2, t_pd2, t_np2, metadata2) := by
  induction t generalizing t_pd t_np metadata t2 t_pd2 t_np2 metadata2 with
  | list v ih =>
      rcases hR : normalize_type v (t_pd.map sliceListTag) none none with ⟨a, b, c, d⟩
      rw [normalize_type_list_eq, hR] at h
      dsimp only at h
      simp only [Prod.mk.injEq] at h
      obtain ⟨rfl, rfl, rfl, rfl⟩ := h
      have hnd : isDictionary a = false := by
        have hx := normalize_type_not_dictionary v (t_pd.map sliceListTag) none none
        rw [hR] at hx
        exact hx
      cases b with
      | some s =>
          have hIH : normalize_type a (some s) c d = (a, some s, c, d) :=
            ih _ _ _ _ _ _ _ hR
          have hind := normalize_type_head_independent a (some s) none none c d hnd
          have hfst : (normalize_type a (some s) none none).1 = a := by
            rw [hind.1, hIH]
          have hsnd : (normalize_type a (some s) none none).2.1 = some s := by
            rw [hind.2, hIH]
          have hslice : (some (formatListTag (some s)) : Option String).map sliceListTag
              = some s := by
            simp [formatListTag, sliceListTag_format]
          rw [normalize_type_list_eq, hslice, hfst, hsnd]
      | none =>
          have hIH : normalize_type a none c d = (a, none, c, d) :=
            ih _ _ _ _ _ _ _ hR
          have hfix := normalize_type_fixed_of_none_fixed a c d hIH
          have hslice : (some (formatListTag none) : Option String).map sliceListTag
              = some "None" := by
            show some (sliceListTag "list[None]") = some "None"
            rfl
          rw [normalize_type_list_eq, hslice, hfix "None" none none]
          dsimp only [formatListTag]
          rfl
  | dictionary i v o ihi ihv =>
      exact ihv t_np t_np none t_pd2 t_np2 metadata2 t2 h
  | _ =>
      simp only [normalize_type] at h
      simp only [Prod.mk.injEq] at h
      obtain ⟨rfl, rfl, rfl, rfl⟩ := h
      simp [normalize_type]

/-- Witness for `normalize_type_idempotent`: re-normalizing the normal form
of `list[list[uint8]]` leaves it unchanged. -/
theorem normalize_type_idempotent_witness :
    normalize_type (.list (.list .uint64)) (some "list[list[uint64]]") (some "object") none
      = (.list (.list .uint64), some "list[list[uint64]]", some "object", none) :=
  normalize_type_idempotent (.list (.list .uint8)) (some "list[list[uint8]]")
    (some "object") none (some "list[list[uint64]]") (some "object") none
    (.list (.list .uint64)) (by decide)

/-! ### Order dependence of `validate_compatible` -/

/-- **C2** (counterexample): the input order is not outcome-irrelevant.  With
`A = [a: null, b: int64]`, `B = [a: int64, b: null]` and
`C = [b: int64, a: int64]`, the list `[C, A, B]` validates (`A` and `B` are
checked against `C` with their null column stripped, so the differing field
order is never seen), while on the permuted list `[A, B, C]` healing builds
the reference `[a: int64, b: int64]` in `A`'s field order, which then
mismatches `C`'s field order and raises. -/
theorem validate_compatible_permutation_counterexample :
    [cexNullA, cexNullB, cexConcrete].Perm [cexConcrete, cexNullA, cexNullB] ∧
    resultOk (validate_compatible [cexConcrete, cexNullA, cexNullB] false) = true ∧
    resultOk (validate_compatible [cexNullA, cexNullB, cexConcrete] false) = false := by
  decide

/-- **C2** (amended): the input order determines which schema becomes the
resolver's reference, and it can also change the pass/fail outcome: there is
a list of schemas and a permutation of it such that `validate_compatible`
succeeds on one ordering and raises on the other. -/
theorem validate_compatible_order_can_change_outcome :
    ∃ (l₁ l₂ : List SchemaWrapper) (ip : Bool), l₁.Perm l₂ ∧
      resultOk (validate_compatible l₁ ip) = true ∧
      resultOk (validate_compatible l₂ ip) = false :=
  ⟨[cexConcrete, cexNullA, cexNullB], [cexNullA, cexNullB, cexConcrete], false,
    by decide, by decide, by decide⟩

/-! ### Resolver analysis -/

@[simp] theorem ok_bindE {α β : Type} (a : α) (f : α → Except VError β) :
    (Except.ok a >>= f) = f a := rfl

@[simp] theorem error_bindE {α β : Type} (e : VError) (f : α → Except VError β) :
    ((Except.error e : Except VError α) >>= f) = Except.error e := rfl

@[simp] theorem pureE {α : Type} (a : α) :
    (pure a : Except VError α) = Except.ok a := rfl

theorem heal_loop_error_kind (cur : SchemaWrapper) :
    ∀ (cols : List String) (ref : SchemaWrapper) (rn : List String) (e : VError),
      heal_loop cur ref rn cols = .error e → ∃ c, e = VError.healMissingField c := by
  intro cols
  induction cols with
  | nil => intro ref rn e h; simp [heal_loop] at h
  | cons col rest ih =>
      intro ref rn e h
      rw [heal_loop] at h
      cases hsw : _swap_fields_by_name ref cur col with
      | error e' =>
          rw [hsw] at h
          simp only [error_bindE] at h
          obtain rfl : e' = e := by simpa using h
          unfold _swap_fields_by_name at hsw
          split at hsw
          · exact ⟨col, by simpa using hsw.symm⟩
          · split at hsw
            · exact ⟨col, by simpa using hsw.symm⟩
            · simp at hsw
      | ok ref' =>
          rw [hsw] at h
          simp only [ok_bindE] at h
          exact ih ref' (rn.erase col) e h

theorem schema_compat_error_kind (s : SchemaWrapper) (e : VError)
    (h : schema_compat s = .error e) : e = .multiIndex := by
  unfold schema_compat at h
  split at h
  · simp at h
  · split at h
    · simpa using h.symm
    · simp at h

theorem prepare_schema_error_kind (hp : Bool) (s : SchemaWrapper) (e : VError)
    (h : prepare_schema hp s = .error e) :
    (e = .mixedPandas ∧ hp = true ∧ s.schema.metadata = none) ∨ e = .multiIndex := by
  unfold prepare_schema at h
  split at h
  · rename_i hc
    split at h
    · rename_i hm
      exact Or.inl ⟨by simpa using h.symm, hc, hm⟩
    · exact Or.inr (schema_compat_error_kind _ _ h)
  · simp at h

theorem resolver_step_error_kind (hp : Bool) (st : ResolverState) (s : SchemaWrapper)
    (e : VError) (h : resolver_step hp st s = .error e) :
    (e = .mixedPandas ∧ hp = true ∧ s.schema.metadata = none) ∨ e = .multiIndex ∨
      ∃ c, e = VError.healMissingField c := by
  unfold resolver_step at h
  cases hprep : prepare_schema hp s with
  | error e' =>
      rw [hprep] at h
      simp only [error_bindE] at h
      obtain rfl : e' = e := by simpa using h
      rcases prepare_schema_error_kind hp s e' hprep with h1 | h2
      · exact Or.inl h1
      · exact Or.inr (Or.inl h2)
  | ok current =>
      rw [hprep] at h
      simp only [ok_bindE] at h
      split at h
      · simp at h
      · split at h
        · simp at h
        · split at h
          · simp at h
          · split at h
            · rename_i hlt
              cases hheal : heal_loop _ _ _ _ with
              | error e' =>
                  rw [hheal] at h
                  simp only [error_bindE] at h
                  obtain rfl : e' = e := by simpa using h
                  exact Or.inr (Or.inr (heal_loop_error_kind _ _ _ _ _ hheal))
              | ok healed =>
                  rw [hheal] at h
                  simp at h
            · rename_i hge
              cases hheal : heal_loop _ _ _ _ with
              | error e' =>
                  rw [hheal] at h
                  simp only [error_bindE] at h
                  obtain rfl : e' = e := by simpa using h
                  exact Or.inr (Or.inr (heal_loop_error_kind _ _ _ _ _ hheal))
              | ok healed =>
                  rw [hheal] at h
                  simp at h

theorem resolver_loop_error_kind :
    ∀ (ss : List SchemaWrapper) (hp : Bool) (st : ResolverState) (e : VError),
      resolver_loop hp st ss = .error e →
      (e = .mixedPandas ∧ hp = true ∧ ∃ s ∈ ss, s.schema.metadata = none) ∨
        e = .multiIndex ∨ ∃ c, e = VError.healMissingField c := by
  intro ss
  induction ss with
  | nil => intro hp st e h; simp [resolver_loop] at h
  | cons s rest ih =>
      intro hp st e h
      rw [resolver_loop] at h
      cases hstep : resolver_step hp st s with
      | error e' =>
          rw [hstep] at h
          simp only [error_bindE] at h
          obtain rfl : e' = e := by simpa using h
          rcases resolver_step_error_kind hp st s e' hstep with ⟨h1, h2, h3⟩ | h2 | h3
          · exact Or.inl ⟨h1, h2, s, List.mem_cons_self .., h3⟩
          · exact Or.inr (Or.inl h2)
          · exact Or.inr (Or.inr h3)
      | ok st' =>
          rw [hstep] at h
          simp only [ok_bindE] at h
          rcases ih hp st' e h with ⟨h1, h2, t, ht, h3⟩ | h2 | h3
          · exact Or.inl ⟨h1, h2, t, List.mem_cons_of_mem _ ht, h3⟩
          · exact Or.inr (Or.inl h2)
          · exact Or.inr (Or.inr h3)

theorem resolver_step_measure (hp : Bool) (st : ResolverState) (s : SchemaWrapper)
    (st' : ResolverState) (h : resolver_step hp st s = .ok st') :
    st'.reference.isSome = true ∧
    st'.schemas_to_evaluate.length + (if st.reference.isSome then 0 else 1)
      = st.schemas_to_evaluate.length + 1 := by
  unfold resolver_step at h
  cases hprep : prepare_schema hp s with
  | error e => rw [hprep] at h; simp at h
  | ok current =>
      rw [hprep] at h
      simp only [ok_bindE] at h
      split at h
      · rename_i href
        simp only [pureE] at h
        injection h with h
        subst h
        simp [href]
      · rename_i reference href
        split at h
        · simp only [pureE] at h
          injection h with h
          subst h
          simp [href]
        · split at h
          · simp only [pureE] at h
            injection h with h
            subst h
            simp [href]
          · split at h
            · cases hheal : heal_loop reference current (nullColumns current)
                  ((nullColumns current).filter
                    (fun c => !st.null_cols_in_reference.elem c)) with
              | error e => rw [hheal] at h; simp at h
              | ok healed =>
                  rw [hheal] at h
                  simp only [ok_bindE, pureE] at h
                  injection h with h
                  subst h
                  simp [href]
            · cases hheal : heal_loop current reference st.null_cols_in_reference
                  (st.null_cols_in_reference.filter
                    (fun c => !(nullColumns current).elem c)) with
              | error e => rw [hheal] at h; simp at h
              | ok healed =>
                  rw [hheal] at h
                  simp only [ok_bindE, pureE] at h
                  injection h with h
                  subst h
                  simp [href]

theorem resolver_loop_measure :
    ∀ (ss : List SchemaWrapper) (hp : Bool) (st st' : ResolverState),
      resolver_loop hp st ss = .ok st' →
      (st'.schemas_to_evaluate.length + (if st'.reference.isSome then 1 else 0)
        = st.schemas_to_evaluate.length + (if st.reference.isSome then 1 else 0) + ss.length) ∧
      (st.reference.isSome = true → st'.reference.isSome = true) ∧
      (ss ≠ [] → st'.reference.isSome = true) := by
  intro ss
  induction ss with
  | nil =>
      intro hp st st' h
      rw [resolver_loop] at h
      injection h with h
      subst h
      exact ⟨by simp, fun hx => hx, fun hx => absurd rfl hx⟩
  | cons s rest ih =>
      intro hp st st' h
      rw [resolver_loop] at h
      cases hstep : resolver_step hp st s with
      | error e => rw [hstep] at h; simp at h
      | ok st1 =>
          rw [hstep] at h
          simp only [ok_bindE] at h
          obtain ⟨hsome1, hcnt1⟩ := resolver_step_measure hp st s st1 hstep
          obtain ⟨hcnt2, hmono, -⟩ := ih hp st1 st' h
          have hsome' := hmono hsome1
          refine ⟨?_, fun _ => hsome', fun _ => hsome'⟩
          rw [hcnt2, hsome1]
          cases hsr : st.reference.isSome <;> simp [hsr] at hcnt1 ⊢ <;> omega

theorem compare_loop_error_kind :
    ∀ (pend : List (SchemaWrapper × List String)) (reference : SchemaWrapper) (e : VError),
      compare_loop reference pend = .error e →
      ∃ o1 o2, e = VError.schemaViolation o1 o2 := by
  intro pend
  induction pend with
  | nil => intro reference e h; simp [compare_loop] at h
  | cons p rest ih =>
      intro reference e h
      obtain ⟨current, nulls⟩ := p
      rw [compare_loop] at h
      split at h
      · exact ⟨current.origin, reference.origin, by simpa using h.symm⟩
      · exact ih reference e h

theorem determine_eq (schemas : List SchemaWrapper) (ip : Bool) :
    _determine_schemas_to_compare schemas ip =
      (resolver_loop (_pandas_in_schemas schemas && !ip)
          { reference := none, null_cols_in_reference := [], schemas_to_evaluate := [] }
          schemas).map (fun st => (st.reference, st.schemas_to_evaluate)) := by
  cases h : resolver_loop (_pandas_in_schemas schemas && !ip)
      { reference := none, null_cols_in_reference := [], schemas_to_evaluate := [] }
      schemas with
  | error e => simp [_determine_schemas_to_compare, h, Except.map]
  | ok st => simp [_determine_schemas_to_compare, h, Except.map]

/-- **C10**: on a non-empty input list of `n` schemas the resolver (when it
returns) yields a non-`None` reference together with exactly `n - 1` pending
pairs; in particular `validate_compatible` on a single-schema list performs
no comparison and never raises the incompatible-schema error. -/
theorem resolver_nonempty_pending_count :
    (∀ (schemas : List SchemaWrapper) (ip : Bool) (refOpt : Option SchemaWrapper)
        (pend : List (SchemaWrapper × List String)),
        schemas ≠ [] →
        _determine_schemas_to_compare schemas ip = .ok (refOpt, pend) →
        refOpt.isSome = true ∧ pend.length + 1 = schemas.length) ∧
    (∀ (s : SchemaWrapper) (ip : Bool),
        resultIsViolation (validate_compatible [s] ip) = false) := by
  have hmain : ∀ (schemas : List SchemaWrapper) (ip : Bool) (refOpt : Option SchemaWrapper)
      (pend : List (SchemaWrapper × List String)),
      schemas ≠ [] →
      _determine_schemas_to_compare schemas ip = .ok (refOpt, pend) →
      refOpt.isSome = true ∧ pend.length + 1 = schemas.length := by
    intro schemas ip refOpt pend hne h
    rw [determine_eq] at h
    cases hloop : resolver_loop (_pandas_in_schemas schemas && !ip)
        { reference := none, null_cols_in_reference := [], schemas_to_evaluate := [] }
        schemas with
    | error e => rw [hloop] at h; simp [Except.map] at h
    | ok st =>
        rw [hloop] at h
        simp only [Except.map] at h
        injection h with h
        obtain ⟨h1, h2⟩ := Prod.mk.injEq .. ▸ h
        subst h1 h2
        obtain ⟨hcnt, -, hne'⟩ := resolver_loop_measure schemas _ _ _ hloop
        have hsome := hne' hne
        rw [hsome] at hcnt
        simp at hcnt
        exact ⟨hsome, by omega⟩
  refine ⟨hmain, ?_⟩
  intro s ip
  cases hdet : _determine_schemas_to_compare [s] ip with
  | error e =>
      have hv : e.isViolation = false := by
        rw [determine_eq] at hdet
        cases hloop : resolver_loop (_pandas_in_schemas [s] && !ip)
            { reference := none, null_cols_in_reference := [], schemas_to_evaluate := [] }
            [s] with
        | error e' =>
            rw [hloop] at hdet
            simp only [Except.map] at hdet
            injection hdet with hdet
            subst hdet
            rcases resolver_loop_error_kind [s] _ _ _ hloop with ⟨h1, -⟩ | h1 | ⟨c, h1⟩ <;>
              simp [h1, VError.isViolation]
        | ok st => rw [hloop] at hdet; simp [Except.map] at hdet
      have hvc : validate_compatible [s] ip = .error e := by
        unfold validate_compatible
        rw [hdet]
        rfl
      rw [hvc]
      simpa [resultIsViolation] using hv
  | ok res =>
      obtain ⟨refOpt, pend⟩ := res
      obtain ⟨hsome, hlen⟩ := hmain [s] ip refOpt pend (by simp) hdet
      obtain ⟨r, rfl⟩ := Option.isSome_iff_exists.mp hsome
      have hpend : pend = [] := by
        cases pend with
        | nil => rfl
        | cons a b => simp at hlen
      subst hpend
      have hvc : validate_compatible [s] ip
          = .ok (some (r.with_origin (List.foldl
              (fun (acc : Finset String) (p : SchemaWrapper × List String) =>
                acc ∪ p.1.origin) r.origin []))) := by
        unfold validate_compatible
        rw [hdet]
        rfl
      rw [hvc]
      rfl

/-- Witness for `resolver_nonempty_pending_count`: on the two-schema list
`[[a: null], [a: int64]]` the resolver returns the second schema as the
reference and exactly one pending pair. -/
theorem resolver_nonempty_pending_count_witness :
    (some wIntA).isSome = true ∧ [(wNullA, ["a"])].length + 1 = [wNullA, wIntA].length :=
  resolver_nonempty_pending_count.1 [wNullA, wIntA] false (some wIntA) [(wNullA, ["a"])]
    (by decide) (by decide)

/-! ### Mixed-descriptor error analysis -/

theorem resultIsMixed_eq {α : Type} (r : Except VError α) (h : resultIsMixed r = true) :
    r = .error .mixedPandas := by
  cases r with
  | ok a => simp [resultIsMixed] at h
  | error e => cases e <;> simp_all [resultIsMixed, VError.isMixed]

theorem shared_columns_of_error_kind (hp : Bool) (s : SchemaWrapper) (e : VError)
    (h : shared_columns_of hp s = .error e) :
    e = .mixedPandas ∧ hp = true ∧ s.schema.metadata = none := by
  unfold shared_columns_of at h
  split at h
  · rename_i hc
    split at h
    · rename_i hm
      exact ⟨by simpa using h.symm, hc, hm⟩
    · simp at h
  · simp at h

theorem shared_cols_loop_error_not_mixed (schema : SchemaWrapper) :
    ∀ (cols : List String) (seen : List (String × (Field × String))) (e : VError),
      shared_cols_loop schema seen cols = .error e → e.isMixed = false := by
  intro cols
  induction cols with
  | nil => intro seen e h; simp [shared_cols_loop] at h
  | cons col rest ih =>
      intro seen e h
      rw [shared_cols_loop] at h
      split at h
      · injection h with h
        subst h
        rfl
      · split at h
        · split at h
          · exact ih seen e h
          · injection h with h
            subst h
            rfl
        · exact ih _ e h

theorem shared_schemas_loop_mixed :
    ∀ (ss : List SchemaWrapper) (hp : Bool) (seen : List (String × (Field × String))),
      shared_schemas_loop hp seen ss = .error .mixedPandas →
      hp = true ∧ ∃ s ∈ ss, s.schema.metadata = none := by
  intro ss
  induction ss with
  | nil => intro hp seen h; simp [shared_schemas_loop] at h
  | cons s rest ih =>
      intro hp seen h
      rw [shared_schemas_loop] at h
      cases hcols : shared_columns_of hp s with
      | error e =>
          rw [hcols] at h
          simp only [error_bindE] at h
          obtain rfl : e = .mixedPandas := by simpa using h
          obtain ⟨-, hhp, hm⟩ := shared_columns_of_error_kind hp s _ hcols
          exact ⟨hhp, s, List.mem_cons_self .., hm⟩
      | ok cols =>
          rw [hcols] at h
          simp only [ok_bindE] at h
          cases hinner : shared_cols_loop s seen cols with
          | error e =>
              rw [hinner] at h
              simp only [error_bindE] at h
              obtain rfl : e = .mixedPandas := by simpa using h
              have := shared_cols_loop_error_not_mixed s cols seen _ hinner
              simp [VError.isMixed] at this
          | ok seen' =>
              rw [hinner] at h
              simp only [ok_bindE] at h
              obtain ⟨hhp, t, ht, hm⟩ := ih hp seen' h
              exact ⟨hhp, t, List.mem_cons_of_mem _ ht, hm⟩

theorem validate_compatible_error_eq (schemas : List SchemaWrapper) (ip : Bool)
    (e : VError) (h : validate_compatible schemas ip = .error e) :
    (_determine_schemas_to_compare schemas ip = .error e) ∨
      ∃ o1 o2, e = VError.schemaViolation o1 o2 := by
  unfold validate_compatible at h
  cases hdet : _determine_schemas_to_compare schemas ip with
  | error e' =>
      rw [hdet] at h
      simp only [error_bindE] at h
      obtain rfl : e' = e := by simpa using h
      exact Or.inl rfl
  | ok res =>
      rw [hdet] at h
      simp only [ok_bindE] at h
      obtain ⟨refOpt, pend⟩ := res
      cases refOpt with
      | none => simp at h
      | some reference =>
          simp only [] at h
          cases hcmp : compare_loop reference pend with
          | error e' =>
              rw [hcmp] at h
              simp only [error_bindE] at h
              obtain rfl : e' = e := by simpa using h
              exact Or.inr (compare_loop_error_kind pend reference e' hcmp)
          | ok u =>
              rw [hcmp] at h
              simp at h

/-- **C8** (counterexample): with `ignorePandas = false`, pandas metadata on
the first two schemas and a conflicting shared column `x` between them, the
incompatible-column error raised while processing the second schema preempts
the mixed-descriptor error even though the third schema lacks pandas
metadata — so "raises the mixed-descriptor error iff some schema lacks
descriptor metadata" fails in the only-if→if direction. -/
theorem mixed_descriptor_iff_counterexample :
    _pandas_in_schemas [pandasIntX, pandasStrX, plainIntY] = true ∧
    plainIntY.schema.metadata = none ∧
    resultIsMixed (validate_shared_columns [pandasIntX, pandasStrX, plainIntY] false) = false ∧
    resultIsIncompatCol (validate_shared_columns [pandasIntX, pandasStrX, plainIntY] false)
      = true := by
  decide

/-- **C8** (amended): with descriptor-aware comparison requested, both
validators raise the mixed-descriptor error **only if** some schema lacks
pandas descriptor metadata (and then `ignorePandas` is false and some schema
carries it); conversely, whenever the **first** schema of the list lacks
pandas metadata while some schema carries it, both validators do raise the
mixed-descriptor error.  (When the first descriptor-less schema appears
later, an incompatibility among the schemas before it may preempt the
mixed-descriptor error.) -/
theorem mixed_descriptor_error_characterization :
    (∀ (schemas : List SchemaWrapper) (ip : Bool),
        resultIsMixed (validate_compatible schemas ip) = true →
        ip = false ∧ (∃ s ∈ schemas, s.schema.metadata.isSome = true) ∧
          ∃ s ∈ schemas, s.schema.metadata = none) ∧
    (∀ (schemas : List SchemaWrapper) (ip : Bool),
        resultIsMixed (validate_shared_columns schemas ip) = true →
        ip = false ∧ (∃ s ∈ schemas, s.schema.metadata.isSome = true) ∧
          ∃ s ∈ schemas, s.schema.metadata = none) ∧
    (∀ (s0 : SchemaWrapper) (rest : List SchemaWrapper),
        _pandas_in_schemas (s0 :: rest) = true → s0.schema.metadata = none →
        resultIsMixed (validate_compatible (s0 :: rest) false) = true ∧
        resultIsMixed (validate_shared_columns (s0 :: rest) false) = true) := by
  have hip : ∀ (schemas : List SchemaWrapper) (ip : Bool),
      (_pandas_in_schemas schemas && !ip) = true →
      ip = false ∧ ∃ s ∈ schemas, s.schema.metadata.isSome = true := by
    intro schemas ip hand
    rw [Bool.and_eq_true] at hand
    obtain ⟨hpan, hnip⟩ := hand
    refine ⟨by cases ip <;> simp_all, ?_⟩
    rw [_pandas_in_schemas, List.any_eq_true] at hpan
    obtain ⟨s, hs, hp⟩ := hpan
    exact ⟨s, hs, hp⟩
  refine ⟨?_, ?_, ?_⟩
  · intro schemas ip h
    have hvc := resultIsMixed_eq _ h
    rcases validate_compatible_error_eq schemas ip _ hvc with hdet | ⟨o1, o2, hfalse⟩
    · rw [determine_eq] at hdet
      cases hloop : resolver_loop (_pandas_in_schemas schemas && !ip)
          { reference := none, null_cols_in_reference := [], schemas_to_evaluate := [] }
          schemas with
      | error e' =>
          rw [hloop] at hdet
          simp only [Except.map] at hdet
          injection hdet with hdet
          subst hdet
          rcases resolver_loop_error_kind schemas _ _ _ hloop with ⟨-, hhp, hmem⟩ | h1 | ⟨c, h1⟩
          · obtain ⟨h1, h2⟩ := hip schemas ip hhp
            exact ⟨h1, h2, hmem⟩
          · simp at h1
          · simp at h1
      | ok st => rw [hloop] at hdet; simp [Except.map] at hdet
    · simp at hfalse
  · intro schemas ip h
    have hvs := resultIsMixed_eq _ h
    unfold validate_shared_columns at hvs
    obtain ⟨hhp, hmem⟩ := shared_schemas_loop_mixed schemas _ [] hvs
    obtain ⟨h1, h2⟩ := hip schemas ip hhp
    exact ⟨h1, h2, hmem⟩
  · intro s0 rest hpan hmeta
    have hhp : (_pandas_in_schemas (s0 :: rest) && !false) = true := by simp [hpan]
    have hprep : prepare_schema true s0 = .error .mixedPandas := by
      simp [prepare_schema, hmeta]
    constructor
    · have hstep : resolver_step true
          { reference := none, null_cols_in_reference := [], schemas_to_evaluate := [] } s0
          = .error .mixedPandas := by
        unfold resolver_step
        rw [hprep]
        rfl
      have hloop : resolver_loop true
          { reference := none, null_cols_in_reference := [], schemas_to_evaluate := [] }
          (s0 :: rest) = .error .mixedPandas := by
        rw [resolver_loop, hstep]
        rfl
      have hdet : _determine_schemas_to_compare (s0 :: rest) false = .error .mixedPandas := by
        rw [determine_eq, hhp, hloop]
        rfl
      have hvc : validate_compatible (s0 :: rest) false = .error .mixedPandas := by
        unfold validate_compatible
        rw [hdet]
        rfl
      rw [hvc]
      rfl
    · have hcols : shared_columns_of true s0 = .error .mixedPandas := by
        simp [shared_columns_of, hmeta]
      have hvs : validate_shared_columns (s0 :: rest) false = .error .mixedPandas := by
        unfold validate_shared_columns
        rw [hhp, shared_schemas_loop, hcols]
        rfl
      rw [hvs]
      rfl

/-- Witness for `mixed_descriptor_error_characterization`: on the list
`[[y: int64] without pandas metadata, [x: int64] with pandas metadata]` the
forward direction reports the lacking schema and the first-schema direction
raises the mixed-descriptor error. -/
theorem mixed_descriptor_error_characterization_witness :
    (false = false ∧
      (∃ s ∈ [plainIntY, pandasIntX], s.schema.metadata.isSome = true) ∧
      ∃ s ∈ [plainIntY, pandasIntX], s.schema.metadata = none) ∧
    resultIsMixed (validate_shared_columns [plainIntY, pandasIntX] false) = true :=
  ⟨mixed_descriptor_error_characterization.1 [plainIntY, pandasIntX] false (by decide),
   (mixed_descriptor_error_characterization.2.2 plainIntY [pandasIntX]
      (by decide) (by decide)).2⟩

/-! ### Null-column bookkeeping lemmas -/

theorem mem_nullColumns {s : SchemaWrapper} {col : String} :
    col ∈ nullColumns s ↔ ∃ f ∈ s.schema.fields, f.type = PaType.null ∧ f.name = col := by
  unfold nullColumns
  simp only [List.mem_map, List.mem_filter, beq_iff_eq]
  constructor
  · rintro ⟨f, ⟨hf, ht⟩, hn⟩
    exact ⟨f, hf, ht, hn⟩
  · rintro ⟨f, hf, ht, hn⟩
    exact ⟨f, ⟨hf, ht⟩, hn⟩

theorem nullColumns_nodup {s : SchemaWrapper} (h : uniqueFieldNames s) :
    (nullColumns s).Nodup :=
  List.Nodup.sublist ((List.filter_sublist s.schema.fields).map Field.name) h

theorem fields_name_unique {s : SchemaWrapper} (h : uniqueFieldNames s)
    {f g : Field} (hf : f ∈ s.schema.fields) (hg : g ∈ s.schema.fields)
    (hname : f.name = g.name) : f = g :=
  List.inj_on_of_nodup_map h hf hg hname

theorem set_getElem_self : ∀ (l : List String) (i : Nat) (a : String),
    l[i]? = some a → l.set i a = l := by
  intro l
  induction l with
  | nil => intro i a h; simp at h
  | cons x xs ih =>
      intro i a h
      cases i with
      | zero =>
          obtain rfl : x = a := by simpa using h
          simp
      | succ j =>
          simp only [List.getElem?_cons_succ] at h
          simp [ih j a h]

theorem nullNames_set : ∀ (l : List Field) (i : Nat) (g f : Field),
    (l.map Field.name).Nodup →
    l[i]? = some g → g.type = PaType.null → f.name = g.name → f.type ≠ PaType.null →
    ((l.set i f).filter (fun x => x.type == PaType.null)).map Field.name
      = ((l.filter (fun x => x.type == PaType.null)).map Field.name).erase g.name := by
  intro l
  induction l with
  | nil => intro i g f _ hget _ _ _; simp at hget
  | cons a as ih =>
      intro i g f hnodup hget hgnull hname hfnull
      cases i with
      | zero =>
          have hag : a = g := by simpa using hget
          subst hag
          rw [List.set_cons_zero, List.filter_cons, List.filter_cons]
          have hft : (f.type == PaType.null) = false := by simpa using hfnull
          have hat : (a.type == PaType.null) = true := by simpa using hgnull
          simp [hft, hat]
      | succ j =>
          simp only [List.getElem?_cons_succ] at hget
          have hg_mem : g ∈ as := by
            obtain ⟨hlt, heq⟩ := List.getElem?_eq_some_iff.mp hget
            exact heq ▸ List.getElem_mem hlt
          have hcons : a.name ∉ as.map Field.name ∧ (as.map Field.name).Nodup := by
            have h0 : (a.name :: as.map Field.name).Nodup := by simpa using hnodup
            exact List.nodup_cons.mp h0
          have haname : a.name ≠ g.name := fun hcontra =>
            hcons.1 (hcontra ▸ List.mem_map_of_mem Field.name hg_mem)
          rw [List.set_cons_succ, List.filter_cons, List.filter_cons]
          cases hat : (a.type == PaType.null) with
          | false =>
              simp only [hat, Bool.false_eq_true, if_false]
              exact ih j g f hcons.2 hget hgnull hname hfnull
          | true =>
              simp only [hat, if_true]
              simp only [List.map_cons]
              rw [List.erase_cons_tail (by simpa using haname)]
              rw [ih j g f hcons.2 hget hgnull hname hfnull]

theorem foldl_indexRemove_sublist :
    ∀ (ics : List PandasIndexColumn) (fs : List Field),
      List.Sublist
        (ics.foldl
          (fun fs ic =>
            match ic with
            | PandasIndexColumn.rangeIndex => fs
            | PandasIndexColumn.named col =>
                match fs.findIdx? (fun f => f.name == col) with
                | some i => fs.eraseIdx i
                | none => fs)
          fs) fs := by
  intro ics
  induction ics with
  | nil => intro fs; exact List.Sublist.refl fs
  | cons ic rest ih =>
      intro fs
      refine List.Sublist.trans (ih _) ?_
      cases ic with
      | rangeIndex => exact List.Sublist.refl fs
      | named col =>
          simp only []
          cases hidx : fs.findIdx? (fun f => f.name == col) with
          | some i => exact List.eraseIdx_sublist fs i
          | none => exact List.Sublist.refl fs

theorem schema_compat_nodup (s c : SchemaWrapper) (h : schema_compat s = .ok c)
    (hs : uniqueFieldNames s) : uniqueFieldNames c := by
  unfold schema_compat at h
  split at h
  · injection h with h
    subst h
    exact hs
  · split at h
    · simp at h
    · injection h with h
      subst h
      exact List.Nodup.sublist ((foldl_indexRemove_sublist _ _).map Field.name) hs

theorem prepare_schema_nodup (hp : Bool) (s c : SchemaWrapper)
    (h : prepare_schema hp s = .ok c) (hs : uniqueFieldNames s) : uniqueFieldNames c := by
  unfold prepare_schema at h
  split at h
  · split at h
    · simp at h
    · exact schema_compat_nodup _ _ h hs
  · injection h with h
    subst h
    exact hs

theorem not_elem_iff {x : List String} {c : String} : ((!x.elem c) = true) ↔ c ∉ x := by
  cases hx : x.elem c
  · simp only [Bool.not_false]
    simp [List.elem_iff] at hx
    simpa using hx
  · simp only [Bool.not_true]
    have : c ∈ x := List.elem_iff.mp hx
    simp [this]

theorem heal_loop_spec (cur : SchemaWrapper) :
    ∀ (cols : List String) (ref : SchemaWrapper) (rn : List String)
      (ref' : SchemaWrapper) (rn' : List String),
      heal_loop cur ref rn cols = .ok (ref', rn') →
      rn = nullColumns ref → uniqueFieldNames ref → cols.Nodup →
      (∀ c ∈ cols, c ∈ rn) → (∀ c ∈ cols, c ∉ nullColumns cur) →
      rn' = nullColumns ref' ∧ uniqueFieldNames ref' ∧
        ∀ c ∈ rn', c ∈ rn ∧ c ∉ cols := by
  intro cols
  induction cols with
  | nil =>
      intro ref rn ref' rn' h hrn hnod hcn hsub hcur
      rw [heal_loop] at h
      injection h with h
      simp only [Prod.mk.injEq] at h
      obtain ⟨rfl, rfl⟩ := h
      exact ⟨hrn, hnod, fun c hc => ⟨hc, List.not_mem_nil c⟩⟩
  | cons col rest ih =>
      intro ref rn ref' rn' h hrn hnod hcn hsub hcur
      rw [heal_loop] at h
      cases hsw : _swap_fields_by_name ref cur col with
      | error e => rw [hsw] at h; simp at h
      | ok ref1 =>
          rw [hsw] at h
          simp only [ok_bindE] at h
          unfold _swap_fields_by_name at hsw
          split at hsw
          · simp at hsw
          · rename_i cf hfb
            split at hsw
            · simp at hsw
            · rename_i i hfi
              injection hsw with hsw
              subst hsw
              unfold SchemaWrapper.fieldByName at hfb
              have hcf_mem : cf ∈ cur.schema.fields := List.mem_of_find?_eq_some hfb
              have hcf_name : cf.name = col := by
                have := List.find?_some hfb
                simpa using this
              have hcf_not_null : cf.type ≠ PaType.null := by
                intro hn
                exact hcur col (List.mem_cons_self ..)
                  (mem_nullColumns.mpr ⟨cf, hcf_mem, hn, hcf_name⟩)
              unfold SchemaWrapper.fieldIndex at hfi
              rw [List.findIdx?_eq_some_iff_getElem] at hfi
              obtain ⟨hlt, hp, -⟩ := hfi
              have hg_name : (ref.schema.fields[i]).name = col := by simpa using hp
              have hg_get : ref.schema.fields[i]? = some (ref.schema.fields[i]) :=
                List.getElem?_eq_getElem hlt
              have hcol_rn : col ∈ rn := hsub col (List.mem_cons_self ..)
              have hg_null : (ref.schema.fields[i]).type = PaType.null := by
                rw [hrn] at hcol_rn
                obtain ⟨f0, hf0mem, hf0null, hf0name⟩ := mem_nullColumns.mp hcol_rn
                have : f0 = ref.schema.fields[i] :=
                  fields_name_unique hnod hf0mem (List.getElem_mem hlt)
                    (by rw [hf0name, hg_name])
                rw [← this]
                exact hf0null
              have hnulls1 : nullColumns (ref.setField i cf) = (nullColumns ref).erase col := by
                show ((ref.schema.fields.set i cf).filter
                    (fun x => x.type == PaType.null)).map Field.name = _
                rw [nullNames_set ref.schema.fields i (ref.schema.fields[i]) cf hnod
                  hg_get hg_null (by rw [hcf_name, hg_name]) hcf_not_null]
                rw [hg_name]
                rfl
              have hnod1 : uniqueFieldNames (ref.setField i cf) := by
                show ((ref.schema.fields.set i cf).map Field.name).Nodup
                rw [List.map_set]
                rw [set_getElem_self (ref.schema.fields.map Field.name) i cf.name
                  (by rw [List.getElem?_map, hg_get]; simp [hcf_name, hg_name])]
                exact hnod
              have hrn_nodup : rn.Nodup := by
                rw [hrn]
                exact nullColumns_nodup hnod
              have hcons := List.nodup_cons.mp hcn
              have hrec := ih (ref.setField i cf) (rn.erase col) ref' rn' h
                (by rw [hrn]; exact hnulls1.symm)
                hnod1 hcons.2
                (fun c hc => by
                  have hne : c ≠ col := fun hceq => hcons.1 (by rw [← hceq]; exact hc)
                  exact (List.mem_erase_of_ne hne).mpr
                    (hsub c (List.mem_cons_of_mem _ hc)))
                (fun c hc => hcur c (List.mem_cons_of_mem _ hc))
              obtain ⟨h1, h2, h3⟩ := hrec
              refine ⟨h1, h2, fun c hc => ?_⟩
              obtain ⟨hc1, hc2⟩ := h3 c hc
              have := (List.Nodup.mem_erase_iff hrn_nodup).mp hc1
              exact ⟨this.2, by
                intro hmem
                rcases List.mem_cons.mp hmem with rfl | hmem2
                · exact this.1 rfl
                · exact hc2 hmem2⟩

theorem resolver_step_inv (hp : Bool) (st : ResolverState) (s : SchemaWrapper)
    (st' : ResolverState) (h : resolver_step hp st s = .ok st')
    (hs : uniqueFieldNames s) (hinv : ResolverInv st) : ResolverInv st' := by
  obtain ⟨hpend, hsome, hnone⟩ := hinv
  unfold resolver_step at h
  cases hprep : prepare_schema hp s with
  | error e => rw [hprep] at h; simp at h
  | ok current =>
      have hcnod : uniqueFieldNames current := prepare_schema_nodup hp s current hprep hs
      rw [hprep] at h
      simp only [ok_bindE] at h
      split at h
      · -- st.reference = none
        rename_i href
        simp only [pureE] at h
        injection h with h
        subst h
        obtain ⟨hrn0, hpend0⟩ := hnone href
        refine ⟨?_, ?_, ?_⟩
        · intro p hpmem c hc
          rw [hpend0] at hpmem
          cases hpmem
        · intro r hr
          injection hr with hr
          subst hr
          exact ⟨rfl, hcnod⟩
        · intro hcontra
          cases hcontra
      · -- st.reference = some reference
        rename_i reference href
        obtain ⟨hrn, hrnod⟩ := hsome reference href
        split at h
        · -- null_cols_in_reference ⊆ null_columns: append (current, nc)
          rename_i hcond
          simp only [pureE] at h
          injection h with h
          subst h
          refine ⟨?_, ?_, ?_⟩
          · intro p hpmem c hc
            rcases List.mem_append.mp hpmem with hold | hnew
            · exact hpend p hold c hc
            · obtain rfl : p = (current, nullColumns current) := by simpa using hnew
              have := List.all_eq_true.mp hcond c hc
              exact List.elem_iff.mp this
          · intro r hr
            exact hsome r hr
          · intro hcontra
            rw [href] at hcontra
            cases hcontra
        · split at h
          · -- null_columns ⊆ null_cols_in_reference: new reference
            rename_i hcond2
            simp only [pureE] at h
            injection h with h
            subst h
            refine ⟨?_, ?_, ?_⟩
            · intro p hpmem c hc
              have hcrn : c ∈ st.null_cols_in_reference :=
                List.elem_iff.mp (List.all_eq_true.mp hcond2 c hc)
              rcases List.mem_append.mp hpmem with hold | hnew
              · exact hpend p hold c hcrn
              · obtain rfl : p = (reference, st.null_cols_in_reference) := by simpa using hnew
                exact hcrn
            · intro r hr
              injection hr with hr
              subst hr
              exact ⟨rfl, hcnod⟩
            · intro hcontra
              cases hcontra
          · split at h
            · -- swap branch: heal the current schema from the old reference
              rename_i hlt
              cases hheal : heal_loop reference current (nullColumns current)
                  ((nullColumns current).filter
                    (fun c => !st.null_cols_in_reference.elem c)) with
              | error e => rw [hheal] at h; simp at h
              | ok healed =>
                  rw [hheal] at h
                  simp only [ok_bindE, pureE] at h
                  injection h with h
                  subst h
                  obtain ⟨ref1, rn1⟩ := healed
                  obtain ⟨hA, hB, hC⟩ := heal_loop_spec reference _ current
                    (nullColumns current) ref1 rn1 hheal rfl hcnod
                    (List.Nodup.filter _ (nullColumns_nodup hcnod))
                    (fun c hc => (List.mem_filter.mp hc).1)
                    (fun c hc => by
                      have := (List.mem_filter.mp hc).2
                      rw [← hrn]
                      exact not_elem_iff.mp this)
                  have hsub_rn : ∀ c ∈ rn1, c ∈ st.null_cols_in_reference := by
                    intro c hc
                    obtain ⟨hc1, hc2⟩ := hC c hc
                    by_contra hnotin
                    exact hc2 (List.mem_filter.mpr ⟨hc1, not_elem_iff.mpr hnotin⟩)
                  refine ⟨?_, ?_, ?_⟩
                  · intro p hpmem c hc
                    rcases List.mem_append.mp hpmem with hold | hnew
                    · exact hpend p hold c (hsub_rn c hc)
                    · obtain rfl : p = (reference, st.null_cols_in_reference) := by
                        simpa using hnew
                      exact hsub_rn c hc
                  · intro r hr
                    injection hr with hr
                    subst hr
                    exact ⟨hA, hB⟩
                  · intro hcontra
                    cases hcontra
            · -- no swap: heal the old reference from the current schema
              rename_i hge
              cases hheal : heal_loop current reference st.null_cols_in_reference
                  (st.null_cols_in_reference.filter
                    (fun c => !(nullColumns current).elem c)) with
              | error e => rw [hheal] at h; simp at h
              | ok healed =>
                  rw [hheal] at h
                  simp only [ok_bindE, pureE] at h
                  injection h with h
                  subst h
                  obtain ⟨ref1, rn1⟩ := healed
                  obtain ⟨hA, hB, hC⟩ := heal_loop_spec current _ reference
                    st.null_cols_in_reference ref1 rn1 hheal hrn hrnod
                    (List.Nodup.filter _ (by rw [hrn]; exact nullColumns_nodup hrnod))
                    (fun c hc => (List.mem_filter.mp hc).1)
                    (fun c hc => not_elem_iff.mp (List.mem_filter.mp hc).2)
                  have hsub_nc : ∀ c ∈ rn1, c ∈ nullColumns current := by
                    intro c hc
                    obtain ⟨hc1, hc2⟩ := hC c hc
                    by_contra hnotin
                    exact hc2 (List.mem_filter.mpr ⟨hc1, not_elem_iff.mpr hnotin⟩)
                  refine ⟨?_, ?_, ?_⟩
                  · intro p hpmem c hc
                    rcases List.mem_append.mp hpmem with hold | hnew
                    · exact hpend p hold c ((hC c hc).1)
                    · obtain rfl : p = (current, nullColumns current) := by simpa using hnew
                      exact hsub_nc c hc
                  · intro r hr
                    injection hr with hr
                    subst hr
                    exact ⟨hA, hB⟩
                  · intro hcontra
                    cases hcontra

theorem resolver_loop_inv :
    ∀ (ss : List SchemaWrapper) (hp : Bool) (st st' : ResolverState),
      resolver_loop hp st ss = .ok st' → (∀ s ∈ ss, uniqueFieldNames s) →
      ResolverInv st → ResolverInv st' := by
  intro ss
  induction ss with
  | nil =>
      intro hp st st' h hnodup hinv
      rw [resolver_loop] at h
      injection h with h
      subst h
      exact hinv
  | cons s rest ih =>
      intro hp st st' h hnodup hinv
      rw [resolver_loop] at h
      cases hstep : resolver_step hp st s with
      | error e => rw [hstep] at h; simp at h
      | ok st1 =>
          rw [hstep] at h
          simp only [ok_bindE] at h
          exact ih hp st1 st' h (fun t ht => hnodup t (List.mem_cons_of_mem _ ht))
            (resolver_step_inv hp st s st1 hstep (hnodup s (List.mem_cons_self ..)) hinv)

/-- **C1**: for every input list of unique-field-name schemas and every value
of `ignore_pandas`, whenever the resolver returns a reference together with
its pending list, the null-column set of that final reference is contained
in the `null_columns` component of every pending pair. -/
theorem determine_reference_nulls_subset (schemas : List SchemaWrapper) (ip : Bool)
    (reference : SchemaWrapper) (pend : List (SchemaWrapper × List String))
    (hnodup : ∀ s ∈ schemas, uniqueFieldNames s)
    (h : _determine_schemas_to_compare schemas ip = .ok (some reference, pend)) :
    ∀ p ∈ pend, ∀ c ∈ nullColumns reference, c ∈ p.2 := by
  rw [determine_eq] at h
  cases hloop : resolver_loop (_pandas_in_schemas schemas && !ip)
      { reference := none, null_cols_in_reference := [], schemas_to_evaluate := [] }
      schemas with
  | error e => rw [hloop] at h; simp [Except.map] at h
  | ok st =>
      rw [hloop] at h
      simp only [Except.map] at h
      injection h with h
      obtain ⟨h1, h2⟩ := Prod.mk.injEq .. ▸ h
      have hinv0 : ResolverInv
          { reference := none, null_cols_in_reference := [], schemas_to_evaluate := [] } := by
        unfold ResolverInv
        refine ⟨fun p hp => ?_, fun r hr => ?_, fun _ => ⟨rfl, rfl⟩⟩
        · cases hp
        · cases hr
      have hinv := resolver_loop_inv schemas _ _ _ hloop hnodup hinv0
      obtain ⟨hpend, hsome, -⟩ := hinv
      obtain ⟨hrn, -⟩ := hsome reference h1
      intro p hpmem c hc
      rw [← h2] at hpmem
      exact hpend p hpmem c (by rw [hrn]; exact hc)

/-- Witness for `determine_reference_nulls_subset`: on
`[[a: null, b: null], [a: null, b: int64]]` the resolver keeps the second
schema (null set `{a}`) as reference and pends the first with null set
`{a, b}`; the reference's null set is contained in it. -/
theorem determine_reference_nulls_subset_witness :
    "a" ∈ (wNullAB, ["a", "b"]).2 :=
  determine_reference_nulls_subset [wNullAB, wNullAIntB] false wNullAIntB
    [(wNullAB, ["a", "b"])] (by decide) (by decide)
    (wNullAB, ["a", "b"]) (by decide) "a" (by decide)

/-! ### Origin-union behaviour of `validate_compatible` -/

theorem foldl_union_eq :
    ∀ (pend : List (SchemaWrapper × List String)) (init : Finset String),
      pend.foldl (fun acc p => acc ∪ p.1.origin) init = init ∪ origins_union pend := by
  intro pend
  induction pend with
  | nil => intro init; simp [origins_union]
  | cons p rest ih =>
      intro init
      rw [List.foldl_cons, ih (init ∪ p.1.origin)]
      rw [show origins_union (p :: rest) = origins_union rest ∪ p.1.origin by
        unfold origins_union
        rw [List.foldl_cons, ih (∅ ∪ p.1.origin)]
        rw [Finset.empty_union, Finset.union_comm]
        rfl]
      rw [Finset.union_assoc, Finset.union_comm (origins_union rest) p.1.origin,
        ← Finset.union_assoc]

theorem validate_compatible_eq_of_some (schemas : List SchemaWrapper) (ip : Bool)
    (reference : SchemaWrapper) (pend : List (SchemaWrapper × List String))
    (h : _determine_schemas_to_compare schemas ip = .ok (some reference, pend)) :
    validate_compatible schemas ip
      = (compare_loop reference pend >>= fun _ => pure (some (reference.with_origin
          (pend.foldl (fun acc p => acc ∪ p.1.origin) reference.origin)))) := by
  unfold validate_compatible
  rw [h]
  rfl

theorem compare_loop_append_of_ok (reference : SchemaWrapper) :
    ∀ (pre rest : List (SchemaWrapper × List String)),
      compare_loop reference pre = .ok () →
      compare_loop reference (pre ++ rest) = compare_loop reference rest := by
  intro pre
  induction pre with
  | nil => intro rest _; rfl
  | cons p pre' ih =>
      intro rest hok
      obtain ⟨c, n⟩ := p
      rw [compare_loop] at hok
      rw [List.cons_append, compare_loop]
      split at hok
      · simp at hok
      · rename_i hmis
        rw [if_neg hmis]
        exact ih rest hok

/-- **C5**: whenever the resolver yields a reference and all pending
comparisons pass, `validate_compatible` returns the reference carrying the
union of its own origin with the origins of every pending schema; the union
is applied only after all comparisons pass — a schema violation raised at
any pending pair carries the pre-union origin sets of that pair's schema and
of the reference. -/
theorem validate_compatible_origin_union (schemas : List SchemaWrapper) (ip : Bool)
    (reference : SchemaWrapper) (pend : List (SchemaWrapper × List String))
    (h : _determine_schemas_to_compare schemas ip = .ok (some reference, pend)) :
    (compare_loop reference pend = .ok () →
      validate_compatible schemas ip
        = .ok (some (reference.with_origin (reference.origin ∪ origins_union pend)))) ∧
    (∀ pre current nulls post,
      pend = pre ++ (current, nulls) :: post →
      compare_loop reference pre = .ok () →
      schemas_mismatch reference current nulls = true →
      validate_compatible schemas ip
        = .error (.schemaViolation current.origin reference.origin)) := by
  constructor
  · intro hcmp
    rw [validate_compatible_eq_of_some schemas ip reference pend h, hcmp]
    rw [foldl_union_eq pend reference.origin]
    rfl
  · intro pre current nulls post hpend hpre hmis
    rw [validate_compatible_eq_of_some schemas ip reference pend h, hpend]
    rw [compare_loop_append_of_ok reference pre _ hpre]
    rw [compare_loop, if_pos hmis]
    rfl

/-- Witness for `validate_compatible_origin_union`: on
`[[a: null], [a: int64]]` all comparisons pass and the returned reference
carries the union of both origins. -/
theorem validate_compatible_origin_union_witness :
    validate_compatible [wNullA, wIntA] false
      = .ok (some (wIntA.with_origin (wIntA.origin ∪ origins_union [(wNullA, ["a"])]))) :=
  (validate_compatible_origin_union [wNullA, wIntA] false wIntA [(wNullA, ["a"])]
      (by decide)).1 (by decide)

/-! ### Shared-column validator analysis -/

theorem shared_cols_loop_ok_spec (schema : SchemaWrapper) :
    ∀ (cols : List String) (seen seen' : List (String × (Field × String))),
      shared_cols_loop schema seen cols = .ok seen' →
      (∀ k r, seen.lookup k = some r → seen'.lookup k = some r) ∧
      (∀ col ∈ cols, ∃ f, schema.fieldByName col = some f ∧
        seen'.lookup col = some (f, col)) ∧
      (∀ k r, seen'.lookup k = some r → seen.lookup k = some r ∨
        (k ∈ cols ∧ ∃ f, schema.fieldByName k = some f ∧ r = (f, k))) := by
  intro cols
  induction cols with
  | nil =>
      intro seen seen' h
      rw [shared_cols_loop] at h
      injection h with h
      subst h
      exact ⟨fun k r hr => hr, fun col hc => absurd hc (List.not_mem_nil col),
             fun k r hr => Or.inl hr⟩
  | cons col rest ih =>
      intro seen seen' h
      rw [shared_cols_loop] at h
      split at h
      · simp at h
      · rename_i f hfb
        split at h
        · rename_i r0 hlk
          split at h
          · rename_i heq
            obtain ⟨hstab, hcols, hnew⟩ := ih seen seen' h
            refine ⟨hstab, ?_, ?_⟩
            · intro c hc
              rcases List.mem_cons.mp hc with rfl | hc2
              · refine ⟨f, hfb, ?_⟩
                rw [heq] at hlk
                exact hstab c _ hlk
              · exact hcols c hc2
            · intro k r hr
              rcases hnew k r hr with h1 | ⟨h2a, h2b⟩
              · exact Or.inl h1
              · exact Or.inr ⟨List.mem_cons_of_mem _ h2a, h2b⟩
          · simp at h
        · rename_i hlk
          obtain ⟨hstab, hcols, hnew⟩ := ih (seen ++ [(col, (f, col))]) seen' h
          have hlk_app : ∀ k r, seen.lookup k = some r →
              (seen ++ [(col, (f, col))]).lookup k = some r := by
            intro k r hr
            rw [List.lookup_append, hr]
            rfl
          have hlk_col : (seen ++ [(col, (f, col))]).lookup col = some (f, col) := by
            rw [List.lookup_append, hlk, Option.none_or]
            simp [List.lookup_cons]
          refine ⟨?_, ?_, ?_⟩
          · intro k r hr
            exact hstab k r (hlk_app k r hr)
          · intro c hc
            rcases List.mem_cons.mp hc with rfl | hc2
            · exact ⟨f, hfb, hstab c _ hlk_col⟩
            · exact hcols c hc2
          · intro k r hr
            rcases hnew k r hr with h1 | ⟨h2a, h2b⟩
            · rw [List.lookup_append] at h1
              cases hsk : seen.lookup k with
              | some r0 =>
                  rw [hsk, Option.or_some] at h1
                  exact Or.inl h1
              | none =>
                  rw [hsk, Option.none_or] at h1
                  rw [List.lookup_cons] at h1
                  cases hkc : (k == col) with
                  | true =>
                      rw [hkc] at h1
                      obtain rfl : k = col := by simpa using hkc
                      injection h1 with h1
                      exact Or.inr ⟨List.mem_cons_self .., f, hfb, h1.symm⟩
                  | false =>
                      rw [hkc] at h1
                      simp at h1
            · exact Or.inr ⟨List.mem_cons_of_mem _ h2a, h2b⟩

theorem shared_cols_loop_error_conflict (schema : SchemaWrapper) :
    ∀ (cols : List String) (seen : List (String × (Field × String))) (e : VError),
      shared_cols_loop schema seen cols = .error e →
      (∀ col ∈ cols, (schema.fieldByName col).isSome = true) →
      ∃ col ∈ cols, ∃ f r, schema.fieldByName col = some f ∧
        seen.lookup col = some r ∧ r ≠ (f, col) := by
  intro cols
  induction cols with
  | nil => intro seen e h _; simp [shared_cols_loop] at h
  | cons col rest ih =>
      intro seen e h hfields
      rw [shared_cols_loop] at h
      split at h
      · rename_i hfb
        have := hfields col (List.mem_cons_self ..)
        rw [hfb] at this
        simp at this
      · rename_i f hfb
        split at h
        · rename_i r0 hlk
          split at h
          · rename_i heq
            obtain ⟨c, hc, f', r', h1, h2, h3⟩ :=
              ih seen e h (fun c hc => hfields c (List.mem_cons_of_mem _ hc))
            exact ⟨c, List.mem_cons_of_mem _ hc, f', r', h1, h2, h3⟩
          · rename_i hne
            exact ⟨col, List.mem_cons_self .., f, r0, hfb, hlk, hne⟩
        · rename_i hlk
          obtain ⟨c, hc, f', r', h1, h2, h3⟩ :=
            ih (seen ++ [(col, (f, col))]) e h
              (fun c hc => hfields c (List.mem_cons_of_mem _ hc))
          rw [List.lookup_append] at h2
          cases hsk : seen.lookup c with
          | some r0 =>
              rw [hsk, Option.or_some] at h2
              exact ⟨c, List.mem_cons_of_mem _ hc, f', r', h1, by rw [hsk]; exact h2, h3⟩
          | none =>
              rw [hsk, Option.none_or] at h2
              rw [List.lookup_cons] at h2
              cases hkc : (c == col) with
              | true =>
                  rw [hkc] at h2
                  obtain rfl : c = col := by simpa using hkc
                  injection h2 with h2
                  rw [hfb] at h1
                  injection h1 with h1
                  exact absurd (by rw [← h2, h1]) h3
              | false =>
                  rw [hkc] at h2
                  simp at h2

theorem shared_cols_loop_conflict_error (schema : SchemaWrapper) :
    ∀ (cols : List String) (seen : List (String × (Field × String))),
      (∃ col ∈ cols, ∃ f r, schema.fieldByName col = some f ∧
        seen.lookup col = some r ∧ r ≠ (f, col)) →
      ∃ e, shared_cols_loop schema seen cols = .error e := by
  intro cols
  induction cols with
  | nil =>
      intro seen hconf
      obtain ⟨c, hc, -⟩ := hconf
      cases hc
  | cons col rest ih =>
      intro seen hconf
      obtain ⟨c, hc, f', r', h1, h2, h3⟩ := hconf
      cases hfb : schema.fieldByName col with
      | none =>
          refine ⟨.fieldLookup col, ?_⟩
          simp only [shared_cols_loop, hfb]
      | some f =>
          cases hlk : seen.lookup col with
          | some r0 =>
              by_cases heq : r0 = (f, col)
              · have htail : ∃ c ∈ rest, ∃ f0 r0', schema.fieldByName c = some f0 ∧
                    seen.lookup c = some r0' ∧ r0' ≠ (f0, c) := by
                  rcases List.mem_cons.mp hc with rfl | hc2
                  · rw [hfb] at h1
                    injection h1 with h1
                    rw [hlk] at h2
                    injection h2 with h2
                    exact absurd (by rw [← h2, heq, h1]) h3
                  · exact ⟨c, hc2, f', r', h1, h2, h3⟩
                obtain ⟨e, herr⟩ := ih seen htail
                refine ⟨e, ?_⟩
                simp only [shared_cols_loop, hfb, hlk]
                rw [if_pos heq]
                exact herr
              · refine ⟨.incompatibleColumn col r0 (f, col), ?_⟩
                simp only [shared_cols_loop, hfb, hlk]
                rw [if_neg heq]
          | none =>
              have hcc : c ≠ col := by
                intro hcontra
                rw [hcontra, hlk] at h2
                cases h2
              have htail : ∃ c2 ∈ rest, ∃ f0 r0', schema.fieldByName c2 = some f0 ∧
                  (seen ++ [(col, (f, col))]).lookup c2 = some r0' ∧ r0' ≠ (f0, c2) := by
                rcases List.mem_cons.mp hc with rfl | hc2
                · exact absurd rfl hcc
                · refine ⟨c, hc2, f', r', h1, ?_, h3⟩
                  rw [List.lookup_append, h2]
                  rfl
              obtain ⟨e, herr⟩ := ih (seen ++ [(col, (f, col))]) htail
              refine ⟨e, ?_⟩
              simp only [shared_cols_loop, hfb, hlk]
              exact herr

theorem shared_cols_loop_error_incompat (schema : SchemaWrapper) :
    ∀ (cols : List String) (seen : List (String × (Field × String))) (e : VError),
      (∀ col ∈ cols, (schema.fieldByName col).isSome = true) →
      shared_cols_loop schema seen cols = .error e → e.isIncompatCol = true := by
  intro cols
  induction cols with
  | nil => intro seen e _ h; simp [shared_cols_loop] at h
  | cons col rest ih =>
      intro seen e hfields h
      rw [shared_cols_loop] at h
      split at h
      · rename_i hfb
        have := hfields col (List.mem_cons_self ..)
        rw [hfb] at this
        simp at this
      · split at h
        · split at h
          · exact ih seen e (fun c hc => hfields c (List.mem_cons_of_mem _ hc)) h
          · injection h with h
            subst h
            rfl
        · exact ih _ e (fun c hc => hfields c (List.mem_cons_of_mem _ hc)) h

theorem shared_columns_of_ok (hp : Bool) (s : SchemaWrapper)
    (hmeta : hp = true → s.schema.metadata.isSome = true) :
    shared_columns_of hp s = .ok (comparable_columns hp s) := by
  unfold shared_columns_of comparable_columns
  cases hp with
  | false => simp [SchemaWrapper.names]
  | true =>
      cases hm : s.schema.metadata with
      | none =>
          have := hmeta rfl
          rw [hm] at this
          simp at this
      | some blob => simp [hm]

theorem columns_conflict_symm {hp : Bool} {s t : SchemaWrapper}
    (h : columns_conflict hp s t) : columns_conflict hp t s := by
  obtain ⟨col, h1, h2, h3⟩ := h
  exact ⟨col, h2, h1, fun he => h3 he.symm⟩

theorem shared_schemas_loop_error_incompat :
    ∀ (rest : List SchemaWrapper) (hp : Bool) (seen : List (String × (Field × String)))
      (e : VError),
      (∀ s ∈ rest, hp = true → s.schema.metadata.isSome = true) →
      (∀ s ∈ rest, ∀ col ∈ comparable_columns hp s, (s.fieldByName col).isSome = true) →
      shared_schemas_loop hp seen rest = .error e → e.isIncompatCol = true := by
  intro rest
  induction rest with
  | nil => intro hp seen e _ _ h; simp [shared_schemas_loop] at h
  | cons schema rest' ih =>
      intro hp seen e hmetaR hcolsR h
      rw [shared_schemas_loop] at h
      rw [shared_columns_of_ok hp schema (hmetaR schema (List.mem_cons_self ..))] at h
      simp only [ok_bindE] at h
      cases hinner : shared_cols_loop schema seen (comparable_columns hp schema) with
      | error e' =>
          rw [hinner] at h
          simp only [error_bindE] at h
          obtain rfl : e' = e := by simpa using h
          exact shared_cols_loop_error_incompat schema _ seen e'
            (hcolsR schema (List.mem_cons_self ..)) hinner
      | ok seen' =>
          rw [hinner] at h
          simp only [ok_bindE] at h
          exact ih hp seen' e (fun s hs => hmetaR s (List.mem_cons_of_mem _ hs))
            (fun s hs => hcolsR s (List.mem_cons_of_mem _ hs)) h

theorem shared_schemas_loop_conflict_iff :
    ∀ (rest : List SchemaWrapper) (hp : Bool) (seen : List (String × (Field × String)))
      (processed : List SchemaWrapper),
      (∀ s ∈ rest, hp = true → s.schema.metadata.isSome = true) →
      (∀ s ∈ rest, ∀ col ∈ comparable_columns hp s, (s.fieldByName col).isSome = true) →
      SharedInv hp seen processed →
      (resultOk (shared_schemas_loop hp seen rest) = false ↔
        ∃ s ∈ rest, ∃ t, (t ∈ processed ∨ t ∈ rest) ∧ columns_conflict hp t s) := by
  intro rest
  induction rest with
  | nil =>
      intro hp seen processed _ _ _
      simp [shared_schemas_loop, resultOk]
  | cons schema rest' ih =>
      intro hp seen processed hmetaR hcolsR hinv
      rw [shared_schemas_loop]
      rw [shared_columns_of_ok hp schema (hmetaR schema (List.mem_cons_self ..))]
      simp only [ok_bindE]
      cases hinner : shared_cols_loop schema seen (comparable_columns hp schema) with
      | error e =>
          simp only [error_bindE]
          obtain ⟨col, hcol, f, r, h1, h2, h3⟩ :=
            shared_cols_loop_error_conflict schema _ seen e hinner
              (hcolsR schema (List.mem_cons_self ..))
          obtain ⟨t, htP, ft, htf, htcol, hr⟩ := hinv.1 col r h2
          have hconflict : columns_conflict hp t schema := by
            refine ⟨col, htcol, hcol, ?_⟩
            rw [htf, h1]
            intro he
            injection he with he
            exact h3 (by rw [hr, he])
          exact iff_of_true rfl
            ⟨schema, List.mem_cons_self .., t, Or.inl htP, hconflict⟩
      | ok seen' =>
          simp only [ok_bindE]
          obtain ⟨hstab, hcolsrec, hnew⟩ := shared_cols_loop_ok_spec schema _ seen seen' hinner
          have hinv' : SharedInv hp seen' (processed ++ [schema]) := by
            constructor
            · intro k r hr
              rcases hnew k r hr with h1 | ⟨h2a, f, h2b, h2c⟩
              · obtain ⟨t, ht, f, hf1, hf2, hf3⟩ := hinv.1 k r h1
                exact ⟨t, List.mem_append_left _ ht, f, hf1, hf2, hf3⟩
              · exact ⟨schema, List.mem_append_right _ (by simp), f, h2b, h2a, h2c⟩
            · intro s hs col hcol
              rcases List.mem_append.mp hs with hsP | hsNew
              · obtain ⟨f, hf1, hf2⟩ := hinv.2 s hsP col hcol
                exact ⟨f, hf1, hstab col _ hf2⟩
              · obtain rfl : s = schema := by simpa using hsNew
                exact hcolsrec col hcol
          rw [ih hp seen' (processed ++ [schema])
            (fun s hs => hmetaR s (List.mem_cons_of_mem _ hs))
            (fun s hs => hcolsR s (List.mem_cons_of_mem _ hs)) hinv']
          have hnoP : ∀ t ∈ processed, ¬ columns_conflict hp t schema := by
            intro t ht hconf
            obtain ⟨col, hcolt, hcolschema, hne⟩ := hconf
            obtain ⟨ft, htf, htlk⟩ := hinv.2 t ht col hcolt
            obtain ⟨f, hfb⟩ := Option.isSome_iff_exists.mp
              (hcolsR schema (List.mem_cons_self ..) col hcolschema)
            have hfne : ft ≠ f := fun hcontra => hne (by rw [htf, hfb, hcontra])
            obtain ⟨e, herr⟩ := shared_cols_loop_conflict_error schema _ seen
              ⟨col, hcolschema, f, (ft, col), hfb, htlk, fun hcontra => by
                injection hcontra with ha hb
                exact hfne ha⟩
            rw [hinner] at herr
            cases herr
          have hnoSelf : ¬ columns_conflict hp schema schema := by
            rintro ⟨col, -, -, hne⟩
            exact hne rfl
          constructor
          · rintro ⟨s, hs, t, htmem, hconf⟩
            refine ⟨s, List.mem_cons_of_mem _ hs, t, ?_, hconf⟩
            rcases htmem with htm | htm
            · rcases List.mem_append.mp htm with hA | hB
              · exact Or.inl hA
              · obtain rfl : t = schema := by simpa using hB
                exact Or.inr (List.mem_cons_self ..)
            · exact Or.inr (List.mem_cons_of_mem _ htm)
          · rintro ⟨s, hs, t, htmem, hconf⟩
            rcases List.mem_cons.mp hs with rfl | hs2
            · rcases htmem with htP | htR
              · exact absurd hconf (hnoP t htP)
              · rcases List.mem_cons.mp htR with rfl | htR2
                · exact absurd hconf hnoSelf
                · exact ⟨t, htR2, s, Or.inl (List.mem_append_right _ (by simp)),
                    columns_conflict_symm hconf⟩
            · refine ⟨s, hs2, t, ?_, hconf⟩
              rcases htmem with htP | htR
              · exact Or.inl (List.mem_append_left _ htP)
              · rcases List.mem_cons.mp htR with rfl | htR2
                · exact Or.inl (List.mem_append_right _ (by simp))
                · exact Or.inr htR2

/-- **C3**: `validate_shared_columns` skips, for each schema, every column
absent from that schema's comparable column set: it raises the
incompatible-column error exactly when two schemas both list a shared
comparable column with differing `(field, column)` records, so schemas that
merely differ in which columns they contain pass the check. -/
theorem validate_shared_columns_conflict_iff (schemas : List SchemaWrapper)
    (ignore_pandas : Bool)
    (hmeta : ∀ s ∈ schemas, (_pandas_in_schemas schemas && !ignore_pandas) = true →
      s.schema.metadata.isSome = true)
    (hcols : ∀ s ∈ schemas,
      ∀ col ∈ comparable_columns (_pandas_in_schemas schemas && !ignore_pandas) s,
      (s.fieldByName col).isSome = true) :
    resultIsIncompatCol (validate_shared_columns schemas ignore_pandas) = true ↔
      ∃ s ∈ schemas, ∃ t ∈ schemas,
        columns_conflict (_pandas_in_schemas schemas && !ignore_pandas) t s := by
  have hinv0 : SharedInv (_pandas_in_schemas schemas && !ignore_pandas) [] [] := by
    constructor
    · intro k r hr
      cases hr
    · intro s hs
      cases hs
  have hiff := shared_schemas_loop_conflict_iff schemas
    (_pandas_in_schemas schemas && !ignore_pandas) [] [] hmeta hcols hinv0
  have hvs : validate_shared_columns schemas ignore_pandas
      = shared_schemas_loop (_pandas_in_schemas schemas && !ignore_pandas) [] schemas := rfl
  rw [hvs]
  cases hres : shared_schemas_loop (_pandas_in_schemas schemas && !ignore_pandas) [] schemas with
  | ok seen' =>
      rw [hres] at hiff
      refine iff_of_false (by simp [resultIsIncompatCol]) ?_
      rintro ⟨s, hs, t, ht, hconf⟩
      have : (∃ s ∈ schemas, ∃ t, (t ∈ ([] : List SchemaWrapper) ∨ t ∈ schemas) ∧
          columns_conflict (_pandas_in_schemas schemas && !ignore_pandas) t s) :=
        ⟨s, hs, t, Or.inr ht, hconf⟩
      have hfalse := hiff.mpr this
      simp [resultOk] at hfalse
  | error e =>
      rw [hres] at hiff
      have hek : e.isIncompatCol = true :=
        shared_schemas_loop_error_incompat schemas _ [] e hmeta hcols hres
      refine iff_of_true (by simpa [resultIsIncompatCol] using hek) ?_
      have := hiff.mp (by simp [resultOk])
      obtain ⟨s, hs, t, htmem, hconf⟩ := this
      rcases htmem with htm | htm
      · cases htm
      · exact ⟨s, hs, t, htm, hconf⟩

/-- Witness for `validate_shared_columns_conflict_iff`: the schemas
`[x: int64]` and `[x: int64, y: string]` differ in their column sets but
agree on the shared column `x`, so no conflict exists and the validator
passes. -/
theorem validate_shared_columns_conflict_iff_witness :
    resultIsIncompatCol (validate_shared_columns [wIntX, wIntXStrY] false) = true ↔
      ∃ s ∈ [wIntX, wIntXStrY], ∃ t ∈ [wIntX, wIntXStrY],
        columns_conflict (_pandas_in_schemas [wIntX, wIntXStrY] && !false) t s :=
  validate_shared_columns_conflict_iff [wIntX, wIntXStrY] false (by decide) (by decide)

end Kartothek
